import Mathlib

/-!
Verification of the polymarket-cpp-client CLOB client.

Shallow embedding of the data model and the operations of the repository.
C++ doubles are modelled as exact rationals, C++ strings as Lean strings,
byte vectors as lists of naturals below 256.  Fallible code (C++ throw)
is modelled with Except / Option.
-/

namespace Polymarket

/-- Price level in the order book (src/include/types.hpp, struct PriceLevel).
The two double fields are modelled as rationals. -/
structure PriceLevel where
  price : ℚ
  size : ℚ
  deriving DecidableEq, Repr

/-- Order book for a single token (src/include/types.hpp, struct Orderbook).
Timestamps are not relevant to the verified properties and are omitted. -/
structure Orderbook where
  asset_id : String
  bids : List PriceLevel
  asks : List PriceLevel
  deriving DecidableEq, Repr

/-- Orderbook::best_bid (types.hpp lines 29-40): 0.0 on an empty bid side,
otherwise the maximum bid price, computed by the same left-to-right scan
starting from the first level. -/
def Orderbook.best_bid (b : Orderbook) : ℚ :=
  match b.bids with
  | [] => 0
  | first :: _ =>
    b.bids.foldl (fun m l => if m < l.price then l.price else m) first.price

/-- Orderbook::best_ask (types.hpp lines 43-54): 1.0 on an empty ask side,
otherwise the minimum ask price. -/
def Orderbook.best_ask (b : Orderbook) : ℚ :=
  match b.asks with
  | [] => 1
  | first :: _ =>
    b.asks.foldl (fun m l => if l.price < m then l.price else m) first.price

/-- Orderbook::best_bid_size (types.hpp lines 56-71): 0.0 on an empty bid
side, otherwise the size stored at the running maximum-price level. -/
def Orderbook.best_bid_size (b : Orderbook) : ℚ :=
  match b.bids with
  | [] => 0
  | first :: _ =>
    (b.bids.foldl
      (fun ms l => if ms.1 < l.price then (l.price, l.size) else ms)
      (first.price, first.size)).2

/-- Orderbook::best_ask_size (types.hpp lines 73-88): 0.0 on an empty ask
side, otherwise the size stored at the running minimum-price level. -/
def Orderbook.best_ask_size (b : Orderbook) : ℚ :=
  match b.asks with
  | [] => 0
  | first :: _ =>
    (b.asks.foldl
      (fun ms l => if l.price < ms.1 then (l.price, l.size) else ms)
      (first.price, first.size)).2

/-- C10: on an empty ask side best_ask() returns 1.0 while on an empty bid
side best_bid() returns 0.0, and both size accessors return 0.0 for their
empty side: the empty-side defaults of the public Orderbook interface are
asymmetric (1 versus 0). -/
theorem orderbook_empty_side_defaults (b : Orderbook) :
    (b.asks = [] → b.best_ask = 1 ∧ b.best_ask_size = 0) ∧
    (b.bids = [] → b.best_bid = 0 ∧ b.best_bid_size = 0) ∧
    (1 : ℚ) ≠ 0 := by
  refine ⟨fun h => ?_, fun h => ?_, one_ne_zero⟩
  · constructor
    · unfold Orderbook.best_ask
      rw [h]
    · unfold Orderbook.best_ask_size
      rw [h]
  · constructor
    · unfold Orderbook.best_bid
      rw [h]
    · unfold Orderbook.best_bid_size
      rw [h]

/-- Witness for the empty-side default theorem at a concrete empty book. -/
theorem orderbook_empty_side_defaults_witness :
    let b : Orderbook := { asset_id := "t", bids := [], asks := [] }
    b.best_ask = 1 ∧ b.best_ask_size = 0 ∧ b.best_bid = 0 ∧ b.best_bid_size = 0 := by
  have h := orderbook_empty_side_defaults { asset_id := "t", bids := [], asks := [] }
  exact ⟨(h.1 rfl).1, (h.1 rfl).2, (h.2.1 rfl).1, (h.2.1 rfl).2⟩

/-- Order types of the client (clob_client.hpp). FAK is serialized as IOC. -/
inductive OrderType where
  | GTC | GTD | FOK | FAK
  deriving DecidableEq, Repr

/-- Order sides (clob_client.hpp). -/
inductive OrderSide where
  | BUY | SELL
  deriving DecidableEq, Repr

/-- Common accumulation loop of calculate_buy_market_price and
calculate_sell_market_price (clob_client.cpp lines 149-201): iterate the
levels (already reversed by the caller, mirroring rbegin..rend), add the
contribution of each level to the running sum and return the price of the
first level at which the sum meets or exceeds the requested amount. -/
def scanAccum (f : PriceLevel → ℚ) : List PriceLevel → ℚ → ℚ → Option ℚ
  | [], _, _ => none
  | l :: rest, sum, amt =>
    let s := sum + f l
    if amt ≤ s then some l.price else scanAccum f rest s amt

/-- Shared skeleton of the two market-price loops (clob_client.cpp lines
149-201): empty level list throws no-match; otherwise walk the levels in
reverse vector order (rbegin..rend) accumulating f per level; a miss throws
no-match for FOK and falls back to the front level's price otherwise. -/
def calcCore (f : PriceLevel → ℚ) (positions : List PriceLevel) (amount : ℚ)
    (ot : OrderType) : Except String ℚ :=
  match positions with
  | [] => .error "no match"
  | first :: _ =>
    match scanAccum f positions.reverse 0 amount with
    | some p => .ok p
    | none => if ot = OrderType.FOK then .error "no match" else .ok first.price

/-- calculate_buy_market_price (clob_client.cpp lines 149-174): the
accumulated quantity is price*size per level. -/
def calculate_buy_market_price (positions : List PriceLevel) (amount : ℚ)
    (ot : OrderType) : Except String ℚ :=
  calcCore (fun l => l.size * l.price) positions amount ot

/-- calculate_sell_market_price (clob_client.cpp lines 176-201): same loop
but accumulating size only. -/
def calculate_sell_market_price (positions : List PriceLevel) (amount : ℚ)
    (ot : OrderType) : Except String ℚ :=
  calcCore (fun l => l.size) positions amount ot

/-- ClobClient::calculate_market_price (clob_client.cpp lines 447-470).
The order-book fetch is modelled by an Option argument: none models a
failed /book request. -/
def calculate_market_price (book : Option Orderbook) (side : OrderSide)
    (amount : ℚ) (ot : OrderType) : Except String ℚ :=
  match book with
  | none => .error "no orderbook"
  | some b =>
    if side = OrderSide.BUY then
      if b.asks.isEmpty then .error "no match"
      else calculate_buy_market_price b.asks amount ot
    else
      if b.bids.isEmpty then .error "no match"
      else calculate_sell_market_price b.bids amount ot

/-- Sum of the accumulation function over the first n levels. -/
def prefixSum (f : PriceLevel → ℚ) (ws : List PriceLevel) (n : ℕ) : ℚ :=
  ((ws.take n).map f).sum

theorem prefixSum_cons (f : PriceLevel → ℚ) (l : PriceLevel)
    (rest : List PriceLevel) (n : ℕ) :
    prefixSum f (l :: rest) (n + 1) = f l + prefixSum f rest n := by
  simp [prefixSum]

/-- When the running sum first meets the amount at index i, the scan returns
the price at index i. -/
theorem scanAccum_hit (f : PriceLevel → ℚ) (ws : List PriceLevel)
    (s amt : ℚ) (i : ℕ) (hi : i < ws.length)
    (hbefore : ∀ j < i, ¬ amt ≤ s + prefixSum f ws (j + 1))
    (hhit : amt ≤ s + prefixSum f ws (i + 1)) :
    scanAccum f ws s amt = some (ws.get ⟨i, hi⟩).price := by
  induction ws generalizing s i with
  | nil => exact absurd hi (Nat.not_lt_zero i)
  | cons l rest ih =>
    cases i with
    | zero =>
      have h0 : amt ≤ s + f l := by
        simpa [prefixSum] using hhit
      simp [scanAccum, h0]
    | succ k =>
      have h0 : ¬ amt ≤ s + f l := by
        have := hbefore 0 (Nat.succ_pos k)
        simpa [prefixSum] using this
      have hk : k < rest.length := Nat.lt_of_succ_lt_succ hi
      have hrec := ih (s + f l) k hk
        (fun j hj => by
          have := hbefore (j + 1) (Nat.succ_lt_succ hj)
          rw [prefixSum_cons] at this
          simpa [add_assoc] using this)
        (by
          rw [prefixSum_cons] at hhit
          simpa [add_assoc] using hhit)
      simpa [scanAccum, h0] using hrec

/-- When the running sum never meets the amount, the scan returns none. -/
theorem scanAccum_miss (f : PriceLevel → ℚ) (ws : List PriceLevel)
    (s amt : ℚ)
    (hmiss : ∀ i < ws.length, ¬ amt ≤ s + prefixSum f ws (i + 1)) :
    scanAccum f ws s amt = none := by
  induction ws generalizing s with
  | nil => rfl
  | cons l rest ih =>
    have h0 : ¬ amt ≤ s + f l := by
      have := hmiss 0 (Nat.succ_pos _)
      simpa [prefixSum] using this
    have hrec := ih (s + f l)
      (fun j hj => by
        have := hmiss (j + 1) (Nat.succ_lt_succ hj)
        rw [prefixSum_cons] at this
        simpa [add_assoc] using this)
    simpa [scanAccum, h0] using hrec

theorem calcCore_hit (f : PriceLevel → ℚ) (first : PriceLevel)
    (rest : List PriceLevel) (amount : ℚ) (ot : OrderType) (i : ℕ)
    (hi : i < (first :: rest).reverse.length)
    (hbefore : ∀ j < i, prefixSum f (first :: rest).reverse (j + 1) < amount)
    (hhit : amount ≤ prefixSum f (first :: rest).reverse (i + 1)) :
    calcCore f (first :: rest) amount ot =
      .ok (((first :: rest).reverse.getD i ⟨0, 0⟩).price) := by
  have hscan := scanAccum_hit f (first :: rest).reverse 0 amount i hi
    (fun j hj => by simpa using not_le_of_lt (hbefore j hj))
    (by simpa using hhit)
  rw [List.getD_eq_getElem _ _ hi]
  rw [List.get_eq_getElem] at hscan
  simp only [calcCore, hscan]

theorem calcCore_miss (f : PriceLevel → ℚ) (first : PriceLevel)
    (rest : List PriceLevel) (amount : ℚ) (ot : OrderType)
    (hmiss : ∀ i < (first :: rest).reverse.length,
      prefixSum f (first :: rest).reverse (i + 1) < amount) :
    calcCore f (first :: rest) amount ot =
      if ot = OrderType.FOK then .error "no match" else .ok first.price := by
  have hscan := scanAccum_miss f (first :: rest).reverse 0 amount
    (fun i hi => by simpa using not_le_of_lt (hmiss i hi))
  simp only [calcCore, hscan]

/-- C3: market-price computation.  For a book with both sides empty every
request yields the no-match error.  For BUY with asks sorted ascending,
the reversed ask list walks prices from the worst (highest) to the best
(lowest); the scan accumulates price*size and the client returns the price
of the first level at which the accumulation meets or exceeds the amount;
if no level does, FOK yields no-match while every other order type returns
the front ask, which is the best (lowest) available price.  For SELL with
bids sorted descending the same holds with size-only accumulation and the
front bid being the best (highest) price. -/
theorem calculate_market_price_spec (b : Orderbook) (amount : ℚ)
    (ot : OrderType)
    (hasks : List.Pairwise (fun x y : PriceLevel => x.price ≤ y.price) b.asks)
    (hbids : List.Pairwise (fun x y : PriceLevel => y.price ≤ x.price) b.bids) :
    (b.asks = [] → b.bids = [] → ∀ side,
      calculate_market_price (some b) side amount ot = .error "no match") ∧
    (calculate_market_price none OrderSide.BUY amount ot = .error "no orderbook") ∧
    (List.Pairwise (fun x y : PriceLevel => y.price ≤ x.price) b.asks.reverse ∧
     List.Pairwise (fun x y : PriceLevel => x.price ≤ y.price) b.bids.reverse) ∧
    (∀ first rest, b.asks = first :: rest →
      (∀ i (hi : i < b.asks.reverse.length),
        (∀ j < i, prefixSum (fun l => l.size * l.price) b.asks.reverse (j + 1) < amount) →
        amount ≤ prefixSum (fun l => l.size * l.price) b.asks.reverse (i + 1) →
        calculate_market_price (some b) OrderSide.BUY amount ot =
          .ok ((b.asks.reverse.getD i ⟨0, 0⟩).price)) ∧
      ((∀ i < b.asks.reverse.length,
          prefixSum (fun l => l.size * l.price) b.asks.reverse (i + 1) < amount) →
        (ot = OrderType.FOK →
          calculate_market_price (some b) OrderSide.BUY amount ot = .error "no match") ∧
        (ot ≠ OrderType.FOK →
          calculate_market_price (some b) OrderSide.BUY amount ot = .ok first.price ∧
          ∀ l ∈ b.asks, first.price ≤ l.price))) ∧
    (∀ first rest, b.bids = first :: rest →
      (∀ i (hi : i < b.bids.reverse.length),
        (∀ j < i, prefixSum (fun l => l.size) b.bids.reverse (j + 1) < amount) →
        amount ≤ prefixSum (fun l => l.size) b.bids.reverse (i + 1) →
        calculate_market_price (some b) OrderSide.SELL amount ot =
          .ok ((b.bids.reverse.getD i ⟨0, 0⟩).price)) ∧
      ((∀ i < b.bids.reverse.length,
          prefixSum (fun l => l.size) b.bids.reverse (i + 1) < amount) →
        (ot = OrderType.FOK →
          calculate_market_price (some b) OrderSide.SELL amount ot = .error "no match") ∧
        (ot ≠ OrderType.FOK →
          calculate_market_price (some b) OrderSide.SELL amount ot = .ok first.price ∧
          ∀ l ∈ b.bids, l.price ≤ first.price))) := by
  have hbuy : ∀ first rest, b.asks = first :: rest →
      calculate_market_price (some b) OrderSide.BUY amount ot =
        calcCore (fun l => l.size * l.price) b.asks amount ot := by
    intro first rest heq
    simp only [calculate_market_price, calculate_buy_market_price, heq]
    simp
  have hsell : ∀ first rest, b.bids = first :: rest →
      calculate_market_price (some b) OrderSide.SELL amount ot =
        calcCore (fun l => l.size) b.bids amount ot := by
    intro first rest heq
    simp only [calculate_market_price, calculate_sell_market_price, heq]
    simp
  constructor
  · intro ha hb side
    cases side <;> simp [calculate_market_price, ha, hb]
  refine ⟨rfl, ⟨?_, ?_⟩, ?_, ?_⟩
  · exact (List.pairwise_reverse).2 hasks
  · exact (List.pairwise_reverse).2 hbids
  · intro first rest heq
    constructor
    · intro i hi hbefore hhit
      rw [hbuy first rest heq]
      rw [heq] at hi hbefore hhit ⊢
      exact calcCore_hit _ first rest amount ot i hi hbefore hhit
    · intro hmiss
      rw [heq] at hmiss
      have hcore := calcCore_miss (fun l => l.size * l.price) first rest amount ot hmiss
      constructor
      · intro hfok
        rw [hbuy first rest heq, heq, hcore, if_pos hfok]
      · intro hnf
        refine ⟨?_, ?_⟩
        · rw [hbuy first rest heq, heq, hcore, if_neg hnf]
        · intro l hl
          rw [heq] at hasks hl
          rcases List.mem_cons.1 hl with hl | hl
          · exact le_of_eq (by rw [hl])
          · exact (List.pairwise_cons.1 hasks).1 l hl

  · intro first rest heq
    constructor
    · intro i hi hbefore hhit
      rw [hsell first rest heq]
      rw [heq] at hi hbefore hhit ⊢
      exact calcCore_hit _ first rest amount ot i hi hbefore hhit
    · intro hmiss
      rw [heq] at hmiss
      have hcore := calcCore_miss (fun l => l.size) first rest amount ot hmiss
      constructor
      · intro hfok
        rw [hsell first rest heq, heq, hcore, if_pos hfok]
      · intro hnf
        refine ⟨?_, ?_⟩
        · rw [hsell first rest heq, heq, hcore, if_neg hnf]
        · intro l hl
          rw [heq] at hbids hl
          rcases List.mem_cons.1 hl with hl | hl
          · exact le_of_eq (by rw [hl])
          · exact (List.pairwise_cons.1 hbids).1 l hl

/-- Witness for the market-price theorem: a one-level book, hit at index 0
for BUY and the empty-book clause exercised on an empty book. -/
theorem calculate_market_price_spec_witness :
    calculate_market_price
        (some { asset_id := "t", bids := [], asks := [⟨1/2, 10⟩] })
        OrderSide.BUY 4 OrderType.FOK = .ok (1/2) ∧
    calculate_market_price
        (some { asset_id := "t", bids := [], asks := [] })
        OrderSide.BUY 4 OrderType.FOK = .error "no match" := by
  constructor
  · have h := calculate_market_price_spec
      { asset_id := "t", bids := [], asks := [⟨1/2, 10⟩] } 4 OrderType.FOK
      (by simp) (by simp)
    have hbuy := (h.2.2.2.1 ⟨1/2, 10⟩ [] rfl).1 0 (by simp)
      (fun j hj => absurd hj (Nat.not_lt_zero j))
      (by norm_num [prefixSum, PriceLevel.price, PriceLevel.size])
    simpa using hbuy
  · have h := calculate_market_price_spec
      { asset_id := "t", bids := [], asks := [] } 4 OrderType.FOK
      (by simp) (by simp)
    exact h.1 rfl rfl OrderSide.BUY

/-- Ask comparison used by the event_type ingest branch: ascending price. -/
def askLE (x y : PriceLevel) : Prop := x.price ≤ y.price

/-- Bid comparison used by the event_type ingest branch: descending price. -/
def bidGE (x y : PriceLevel) : Prop := y.price ≤ x.price

instance : DecidableRel askLE := fun x y => inferInstanceAs (Decidable (x.price ≤ y.price))

instance : DecidableRel bidGE := fun x y => inferInstanceAs (Decidable (y.price ≤ x.price))

instance : IsTotal PriceLevel askLE := ⟨fun a b => le_total a.price b.price⟩

instance : IsTrans PriceLevel askLE := ⟨fun _ _ _ h1 h2 => le_trans h1 h2⟩

instance : IsTotal PriceLevel bidGE := ⟨fun a b => le_total b.price a.price⟩

instance : IsTrans PriceLevel bidGE := ⟨fun _ _ _ h1 h2 => le_trans h2 h1⟩

/-- Model of std::sort with the ascending-price comparator
(orderbook.cpp lines 357-359). -/
def sortAsksAsc (l : List PriceLevel) : List PriceLevel :=
  List.insertionSort askLE l

/-- Model of std::sort with the descending-price comparator
(orderbook.cpp lines 321-323). -/
def sortBidsDesc (l : List PriceLevel) : List PriceLevel :=
  List.insertionSort bidGE l

/-- Incoming WebSocket envelope after JSON decoding.  The two tolerated
formats of OrderbookManager::handle_message (orderbook.cpp lines 183-369):
the real-time data format (topic clob_market / type agg_orderbook, with
asks and bids inside a payload object) and the legacy event_type format.
Price levels are already numeric; string/number parsing of the JSON
library is external to the repository. -/
inductive WsMessage where
  | agg (asset_id : String) (asks bids : List PriceLevel)
  | eventBook (event_type : String) (asset_id : String)
      (bids asks : List PriceLevel)
  | other
  deriving DecidableEq

/-- OrderbookManager::handle_message, reduced to the book that is handed to
handle_orderbook_update (orderbook.cpp lines 183-369).  In the
agg_orderbook branch (lines 199-256) asks and bids are pushed in delivery
order and no sort is applied; in the event_type branch (lines 258-363)
bids are sorted descending and asks ascending before the hand-off.  Other
messages are dropped. -/
def handle_message : WsMessage → Option (String × Orderbook)
  | .agg a asks bids =>
    some (a, { asset_id := a, bids := bids, asks := asks })
  | .eventBook et a bids asks =>
    if et = "book" ∨ et = "price_change" then
      some (a, { asset_id := a, bids := sortBidsDesc bids, asks := sortAsksAsc asks })
    else none
  | .other => none

/-- C5 counterexample: an agg_orderbook envelope whose asks arrive in
descending order is handed to the order-book manager unsorted - the
claim that both envelope formats yield ascending asks is false. -/
theorem handle_message_agg_unsorted :
    handle_message (WsMessage.agg ("t") [⟨1/2, 1⟩, ⟨3/10, 1⟩] []) =
      some (("t"), { asset_id := "t", bids := [], asks := [⟨1/2, 1⟩, ⟨3/10, 1⟩] }) ∧
    ¬ List.Pairwise askLE [PriceLevel.mk (1/2) 1, PriceLevel.mk (3/10) 1] := by
  constructor
  · rfl
  · intro h
    have := (List.pairwise_cons.1 h).1 (PriceLevel.mk (3/10) 1) (by simp)
    have hlt : ((3 : ℚ)/10) < 1/2 := by norm_num
    exact absurd this (by simpa [askLE] using not_le_of_lt hlt)

/-- C5 amended: books ingested through the event_type branch have bids
sorted in descending and asks in ascending price order for every input,
while the agg_orderbook branch hands the book over with both sides in
upstream delivery order. -/
theorem handle_message_sorting (et a : String)
    (bids asks aggAsks aggBids : List PriceLevel)
    (het : et = "book" ∨ et = "price_change") :
    (∃ bk, handle_message (WsMessage.eventBook et a bids asks) = some (a, bk) ∧
      List.Pairwise bidGE bk.bids ∧ List.Pairwise askLE bk.asks) ∧
    handle_message (WsMessage.agg a aggAsks aggBids) =
      some (a, { asset_id := a, bids := aggBids, asks := aggAsks }) := by
  refine ⟨⟨{ asset_id := a, bids := sortBidsDesc bids, asks := sortAsksAsc asks }, ?_, ?_, ?_⟩, rfl⟩
  · simp [handle_message, het]
  · exact List.sorted_insertionSort bidGE bids
  · exact List.sorted_insertionSort askLE asks

/-- Witness for the amended C5 theorem on concrete unsorted input. -/
theorem handle_message_sorting_witness :
    (∃ bk, handle_message
        (WsMessage.eventBook ("book") ("t") [⟨3/10, 1⟩, ⟨1/2, 1⟩] [⟨1/2, 1⟩, ⟨3/10, 1⟩]) =
        some (("t"), bk) ∧
      List.Pairwise bidGE bk.bids ∧ List.Pairwise askLE bk.asks) := by
  exact (handle_message_sorting ("book") ("t")
    [⟨3/10, 1⟩, ⟨1/2, 1⟩] [⟨1/2, 1⟩, ⟨3/10, 1⟩] [] [] (Or.inl rfl)).1

/-- Association-list lookup modelling std::unordered_map find. -/
def alookup {α : Type} (k : String) : List (String × α) → Option α
  | [] => none
  | (k', v) :: rest => if k = k' then some v else alookup k rest

/-- Association-list write modelling map operator[] assignment. -/
def aset {α : Type} (k : String) (v : α) : List (String × α) → List (String × α)
  | [] => [(k, v)]
  | (k', v') :: rest => if k = k' then (k, v) :: rest else (k', v') :: aset k v rest

theorem alookup_aset_self {α : Type} (k : String) (v : α) (l : List (String × α)) :
    alookup k (aset k v l) = some v := by
  induction l with
  | nil => simp [alookup, aset]
  | cons p rest ih =>
    by_cases h : k = p.1
    · simp [aset, alookup, h]
    · simp [aset, alookup, h, ih]

/-- Live market record (types.hpp struct LiveMarketState): the atomic
double fields are modelled as rationals; identification strings kept. -/
structure MarketQ where
  condition_id : String
  token_yes : String
  token_no : String
  best_ask_yes : ℚ
  best_ask_no : ℚ
  best_ask_yes_size : ℚ
  best_ask_no_size : ℚ
  update_count : ℕ
  deriving DecidableEq, Repr

/-- Order-book manager state (orderbook.hpp): the three maps, the update
counter and the configured arbitrage trigger. -/
structure ManagerState where
  orderbooks : List (String × Orderbook)
  markets : List (String × MarketQ)
  token_to_condition : List (String × String)
  total_updates : ℕ
  trigger_combined : ℚ
  deriving DecidableEq

/-- Default trigger_combined of the Config record (types.hpp line 224). -/
def defaultTriggerCombined : ℚ := 98/100

/-- OrderbookManager::check_arb_opportunity (orderbook.cpp lines 424-454):
look the market up, read both best asks, bail out when either is not
positive, and fire the arbitrage callback with the market and the combined
price when the combined price is below the trigger.  The returned list
holds the callback invocations. -/
def check_arb_opportunity (st : ManagerState) (condition_id : String) :
    List (MarketQ × ℚ) :=
  match alookup condition_id st.markets with
  | none => []
  | some market =>
    let combined := market.best_ask_yes + market.best_ask_no
    if market.best_ask_yes ≤ 0 ∨ market.best_ask_no ≤ 0 then []
    else if combined < st.trigger_combined then [(market, combined)] else []

/-- OrderbookManager::handle_orderbook_update (orderbook.cpp lines
371-422): store the book, bump the update counter, resolve the owning
condition, update the matching side's best ask and size on the market
record, bump its update count, invoke the user update callback and then
the arbitrage detector.  Returns the new state, the update-callback
invocations and the arbitrage-callback invocations. -/
def handle_orderbook_update (st : ManagerState) (asset_id : String)
    (book : Orderbook) :
    ManagerState × List (String × Orderbook) × List (MarketQ × ℚ) :=
  let st1 := { st with
    orderbooks := aset asset_id book st.orderbooks,
    total_updates := st.total_updates + 1 }
  match alookup asset_id st1.token_to_condition with
  | none => (st1, [], [])
  | some condition_id =>
    let st2 :=
      match alookup condition_id st1.markets with
      | none => st1
      | some m =>
        let m1 :=
          if asset_id = m.token_yes then
            { m with best_ask_yes := book.best_ask,
                     best_ask_yes_size := book.best_ask_size }
          else if asset_id = m.token_no then
            { m with best_ask_no := book.best_ask,
                     best_ask_no_size := book.best_ask_size }
          else m
        let m2 := { m1 with update_count := m1.update_count + 1 }
        { st1 with markets := aset condition_id m2 st1.markets }
    (st2, [(asset_id, book)], check_arb_opportunity st2 condition_id)

/-- C6: for an ingested update on a subscribed market (the token maps to a
condition that has a market record), let ya and na be the stored best asks
after the update; the arbitrage callback fires exactly once for the update
iff ya > 0, na > 0 and ya + na < trigger_combined, and the single
invocation carries the stored market snapshot and the combined price.
The default trigger is 0.98. -/
theorem arb_callback_exactly_once (st : ManagerState) (asset_id : String)
    (book : Orderbook) (c : String) (m : MarketQ)
    (hc : alookup asset_id st.token_to_condition = some c)
    (hm : alookup c st.markets = some m) :
    ∃ m', alookup c (handle_orderbook_update st asset_id book).1.markets = some m' ∧
      (handle_orderbook_update st asset_id book).2.2 =
        (if 0 < m'.best_ask_yes ∧ 0 < m'.best_ask_no ∧
            m'.best_ask_yes + m'.best_ask_no < st.trigger_combined
         then [(m', m'.best_ask_yes + m'.best_ask_no)] else []) ∧
      defaultTriggerCombined = 98/100 := by
  unfold handle_orderbook_update
  simp only [hc, hm]
  set m1 :=
    if asset_id = m.token_yes then
      { m with best_ask_yes := book.best_ask,
               best_ask_yes_size := book.best_ask_size }
    else if asset_id = m.token_no then
      { m with best_ask_no := book.best_ask,
               best_ask_no_size := book.best_ask_size }
    else m with hm1
  refine ⟨{ m1 with update_count := m1.update_count + 1 }, ?_, ?_, rfl⟩
  · simp [alookup_aset_self]
  · unfold check_arb_opportunity
    simp only [alookup_aset_self]
    by_cases hzero : ({ m1 with update_count := m1.update_count + 1 } : MarketQ).best_ask_yes ≤ 0 ∨
        ({ m1 with update_count := m1.update_count + 1 } : MarketQ).best_ask_no ≤ 0
    · rw [if_pos hzero]
      rw [if_neg]
      intro hcontra
      rcases hzero with h | h
      · exact absurd hcontra.1 (not_lt_of_le h)
      · exact absurd hcontra.2.1 (not_lt_of_le h)
    · rw [if_neg hzero]
      push_neg at hzero
      by_cases htrig : ({ m1 with update_count := m1.update_count + 1 } : MarketQ).best_ask_yes +
          ({ m1 with update_count := m1.update_count + 1 } : MarketQ).best_ask_no < st.trigger_combined
      · rw [if_pos htrig, if_pos ⟨hzero.1, hzero.2, htrig⟩]
      · rw [if_neg htrig, if_neg]
        intro hcontra
        exact absurd hcontra.2.2 htrig

/-- Concrete book for the arbitrage witness. -/
def wBook : Orderbook := { asset_id := "ty", bids := [], asks := [⟨48/100, 5⟩] }

/-- Concrete subscribed market for the arbitrage witness. -/
def wMarket : MarketQ :=
  { condition_id := "c", token_yes := "ty", token_no := "tn",
    best_ask_yes := 0, best_ask_no := 49/100,
    best_ask_yes_size := 0, best_ask_no_size := 3, update_count := 0 }

/-- Concrete manager state for the arbitrage witness. -/
def wState : ManagerState :=
  { orderbooks := [], markets := [(("c"), wMarket)],
    token_to_condition := [(("ty"), ("c")), (("tn"), ("c"))],
    total_updates := 0, trigger_combined := 98/100 }

/-- Witness for the arbitrage theorem: one subscribed market and an update
on the YES token; the theorem applies with both lookups discharged. -/
theorem arb_callback_exactly_once_witness :
    alookup ("ty") wState.token_to_condition = some ("c") ∧
    alookup ("c") wState.markets = some wMarket ∧
    (∃ m', alookup ("c") (handle_orderbook_update wState ("ty") wBook).1.markets = some m' ∧
      (handle_orderbook_update wState ("ty") wBook).2.2 =
        (if 0 < m'.best_ask_yes ∧ 0 < m'.best_ask_no ∧
            m'.best_ask_yes + m'.best_ask_no < wState.trigger_combined
         then [(m', m'.best_ask_yes + m'.best_ask_no)] else []) ∧
      defaultTriggerCombined = 98/100) :=
  ⟨by simp [wState, alookup], by simp [wState, alookup],
    arb_callback_exactly_once wState ("ty") wBook ("c") wMarket
      (by simp [wState, alookup]) (by simp [wState, alookup])⟩

/-- HTTP methods of the transport (http_client.hpp: get, post, del). -/
inductive HttpMethod where
  | GET | POST | DELETE
  deriving DecidableEq, Repr

/-- Shape of one outbound authenticated request of the client facade: the
wire method, URL path (with query when present) and body that reach
HttpClient, together with the (method, path, body) triple passed to
get_l2_headers for the HMAC signature. -/
structure SentRequest where
  method : HttpMethod
  path : String
  body : String
  signed_method : String
  signed_path : String
  signed_body : String
  deriving DecidableEq, Repr

/-- Logical path of a URL: everything before the first question mark. -/
def stripQuery (s : String) : String :=
  String.mk (s.data.takeWhile (fun c => c ≠ ('?')))

/-- The URL path carries a query string. -/
def hasQuery (s : String) : Prop := ('?') ∈ s.data

instance (s : String) : Decidable (hasQuery s) :=
  inferInstanceAs (Decidable (('?') ∈ s.data))

/-- ClobClient::get_balance_allowance (clob_client.cpp lines 1793-1800):
the signature is computed over the bare base path while the outbound GET
carries the asset_type and signature_type query parameters. -/
def get_balance_allowance_request (sig_type : ℕ) : SentRequest :=
  let base_path := "/balance-allowance"
  let path_with_params :=
    base_path ++ "?asset_type=COLLATERAL&signature_type=" ++ toString sig_type
  { method := .GET, path := path_with_params, body := "",
    signed_method := "GET", signed_path := base_path, signed_body := "" }

/-- ClobClient::get_open_orders (clob_client.cpp lines 1759-1774): the
market filter is appended to the path before the L2 headers are computed,
so the signature covers the query string. -/
def get_open_orders_request (market : String) : SentRequest :=
  let path := if market = "" then "/orders" else "/orders?market=" ++ market
  { method := .GET, path := path, body := "",
    signed_method := "GET", signed_path := path, signed_body := "" }

theorem takeWhile_append_all {α : Type} (p : α → Bool) (xs ys : List α)
    (h : ∀ x ∈ xs, p x = true) :
    (xs ++ ys).takeWhile p = xs ++ ys.takeWhile p := by
  induction xs with
  | nil => rfl
  | cons x rest ih =>
    have hx := h x (by simp)
    simp only [List.cons_append, List.takeWhile_cons, hx]
    simp [ih (fun y hy => h y (by simp [hy]))]

theorem takeWhile_append_stops {α : Type} (p : α → Bool) (xs ys : List α)
    (h : xs.any (fun x => !p x) = true) :
    (xs ++ ys).takeWhile p = xs.takeWhile p := by
  induction xs with
  | nil => simp at h
  | cons x rest ih =>
    by_cases hx : p x = true
    · simp only [List.cons_append, List.takeWhile_cons, hx]
      simp only [List.any_cons, hx] at h
      simp only [Bool.not_true, Bool.false_or] at h
      rw [ih h]
    · simp only [List.cons_append, List.takeWhile_cons,
        Bool.eq_false_iff.2 hx]
      rfl

/-- C7 counterexample: get_open_orders with a market filter signs over the
full path including the query string, not over the logical path. -/
theorem l2_query_signing_counterexample :
    hasQuery (get_open_orders_request ("abc")).path ∧
    (get_open_orders_request ("abc")).signed_path ≠
      stripQuery (get_open_orders_request ("abc")).path := by
  constructor
  · decide
  · decide

/-- C7 amended: get_balance_allowance signs over the logical path with the
query excluded while its outbound URL carries the query; get_open_orders
with a market filter signs over the full path including the query
string. -/
theorem l2_query_signing_spec (sig_type : ℕ) (market : String)
    (hm : market ≠ "") :
    (hasQuery (get_balance_allowance_request sig_type).path ∧
     (get_balance_allowance_request sig_type).signed_path =
       stripQuery (get_balance_allowance_request sig_type).path) ∧
    ((get_open_orders_request market).signed_path =
       (get_open_orders_request market).path ∧
     hasQuery (get_open_orders_request market).path) := by
  refine ⟨⟨?_, ?_⟩, rfl, ?_⟩
  · unfold get_balance_allowance_request hasQuery
    rw [String.data_append]
    exact List.mem_append_left _ (by decide)
  · unfold get_balance_allowance_request stripQuery
    rw [String.data_append, takeWhile_append_stops _ _ _ (by decide)]
    rfl
  · unfold get_open_orders_request hasQuery
    simp only [if_neg hm]
    rw [String.data_append]
    exact List.mem_append_left _ (by decide)

/-- Witness for the amended C7 theorem at a concrete market filter. -/
theorem l2_query_signing_spec_witness :
    ("m" : String) ≠ "" ∧
    ((get_open_orders_request ("m")).signed_path =
       (get_open_orders_request ("m")).path ∧
     hasQuery (get_open_orders_request ("m")).path) :=
  ⟨by decide, (l2_query_signing_spec 0 ("m") (by decide)).2⟩

/-- Serialization of a one-field JSON string object, modelling the
nlohmann dump of the cancel bodies. -/
def jsonObj1 (key val : String) : String :=
  "\x7b\"" ++ key ++ "\":\"" ++ val ++ "\"\x7d"

/-- Comma join used by the JSON array serializer. -/
def joinComma : List String → String
  | [] => ""
  | [x] => x
  | x :: rest => x ++ "," ++ joinComma rest

/-- Serialization of a JSON array of strings, modelling the nlohmann dump
of the order-id list body of cancel_orders. -/
def jsonStringArray (ids : List String) : String :=
  "[" ++ joinComma (ids.map (fun s => "\"" ++ s ++ "\"")) ++ "]"

/-- ClobClient::cancel_order (clob_client.cpp lines 1701-1712): the L2
headers are computed for method DELETE over /order with the orderID body,
but the wire request goes out as a POST to /order with that body. -/
def cancel_order_request (order_id : String) : SentRequest :=
  let body := jsonObj1 ("orderID") order_id
  { method := .POST, path := "/order", body := body,
    signed_method := "DELETE", signed_path := "/order", signed_body := body }

/-- ClobClient::cancel_orders (clob_client.cpp lines 1714-1723). -/
def cancel_orders_request (ids : List String) : SentRequest :=
  let body := jsonStringArray ids
  { method := .POST, path := "/orders", body := body,
    signed_method := "DELETE", signed_path := "/orders", signed_body := body }

/-- ClobClient::cancel_all (clob_client.cpp lines 1725-1730): headers are
signed over an empty body while the POST body is the empty JSON object. -/
def cancel_all_request : SentRequest :=
  { method := .POST, path := "/cancel-all", body := "\x7b\x7d",
    signed_method := "DELETE", signed_path := "/cancel-all", signed_body := "" }

/-- ClobClient::cancel_market_orders (clob_client.cpp lines 1732-1742). -/
def cancel_market_orders_request (condition_id : String) : SentRequest :=
  let body := jsonObj1 ("market") condition_id
  { method := .POST, path := "/cancel-market-orders", body := body,
    signed_method := "DELETE", signed_path := "/cancel-market-orders",
    signed_body := body }

/-- C8 counterexample: cancel_order does not issue an HTTP DELETE - the
wire method of the request it builds is POST. -/
theorem cancel_order_not_delete :
    (cancel_order_request ("abc")).method = HttpMethod.POST ∧
    HttpMethod.POST ≠ HttpMethod.DELETE :=
  ⟨rfl, by decide⟩

theorem string_append_ne_empty_right (s t : String) (h : t.data ≠ []) :
    s ++ t ≠ "" := by
  intro he
  apply h
  have hd := congrArg String.data he
  rw [String.data_append] at hd
  exact (List.append_eq_nil.1 hd).2

/-- C8 amended: every cancel operation sends an HTTP POST (not DELETE)
with a non-empty JSON body to its endpoint, while its L2 headers are
computed for method DELETE. -/
theorem cancel_requests_spec (order_id condition_id : String)
    (ids : List String) :
    ((cancel_order_request order_id).method = HttpMethod.POST ∧
     (cancel_order_request order_id).signed_method = "DELETE" ∧
     (cancel_order_request order_id).path = "/order" ∧
     (cancel_order_request order_id).body ≠ "") ∧
    ((cancel_orders_request ids).method = HttpMethod.POST ∧
     (cancel_orders_request ids).signed_method = "DELETE" ∧
     (cancel_orders_request ids).path = "/orders" ∧
     (cancel_orders_request ids).body ≠ "") ∧
    (cancel_all_request.method = HttpMethod.POST ∧
     cancel_all_request.signed_method = "DELETE" ∧
     cancel_all_request.path = "/cancel-all" ∧
     cancel_all_request.body ≠ "") ∧
    ((cancel_market_orders_request condition_id).method = HttpMethod.POST ∧
     (cancel_market_orders_request condition_id).signed_method = "DELETE" ∧
     (cancel_market_orders_request condition_id).path = "/cancel-market-orders" ∧
     (cancel_market_orders_request condition_id).body ≠ "") := by
  refine ⟨⟨rfl, rfl, rfl, ?_⟩, ⟨rfl, rfl, rfl, ?_⟩, ⟨rfl, rfl, rfl, by decide⟩,
    ⟨rfl, rfl, rfl, ?_⟩⟩
  · unfold cancel_order_request jsonObj1
    exact string_append_ne_empty_right _ _ (by decide)
  · unfold cancel_orders_request jsonStringArray
    exact string_append_ne_empty_right _ _ (by decide)
  · unfold cancel_market_orders_request jsonObj1
    exact string_append_ne_empty_right _ _ (by decide)

/-- Little-endian decimal digits with an explicit fuel bound, so that the
definition is structural and kernel-computable. -/
def natDigitsAux : ℕ → ℕ → List ℕ
  | 0, _ => []
  | fuel + 1, n => if n = 0 then [] else n % 10 :: natDigitsAux fuel (n / 10)

/-- Little-endian decimal digits of a natural number. -/
def natDigitsLE (n : ℕ) : List ℕ := natDigitsAux n n

theorem natDigitsAux_eq (fuel n : ℕ) (h : n ≤ fuel) :
    natDigitsAux fuel n = Nat.digits 10 n := by
  induction fuel generalizing n with
  | zero =>
    have : n = 0 := Nat.le_zero.1 h
    subst this
    simp [natDigitsAux]
  | succ f ih =>
    by_cases hn : n = 0
    · subst hn
      simp [natDigitsAux]
    · rw [natDigitsAux, if_neg hn]
      rw [Nat.digits_def' (by norm_num : (1:ℕ) < 10) (Nat.pos_of_ne_zero hn)]
      have hdiv : n / 10 ≤ f := by
        have h1 : n / 10 < n := Nat.div_lt_self (Nat.pos_of_ne_zero hn) (by norm_num)
        omega
      rw [ih (n / 10) hdiv]

theorem natDigitsLE_eq (n : ℕ) : natDigitsLE n = Nat.digits 10 n :=
  natDigitsAux_eq n n le_rfl

/-- ASCII character of a decimal digit. -/
def digitChar (d : ℕ) : Char := Char.ofNat (48 + d)

/-- Numeric value of an ASCII digit character. -/
def charVal (c : Char) : ℕ := c.toNat - 48

/-- Decimal character string of a natural number, most significant digit
first ("0" for zero), modelling ostream integer printing. -/
def natChars (n : ℕ) : List Char :=
  if n = 0 then [('0')] else (natDigitsLE n).reverse.map digitChar

/-- Left zero padding to a fixed width. -/
def padZerosLeft (k : ℕ) (l : List Char) : List Char :=
  List.replicate (k - l.length) ('0') ++ l

/-- The k fractional digit characters of m (m < 10^k), zero padded. -/
def fracChars (k m : ℕ) : List Char :=
  padZerosLeft k ((natDigitsLE m).reverse.map digitChar)

/-- Fixed-precision decimal printing: the character string of N/10^k
printed with exactly k digits after the decimal point.  This models
ostringstream with std::fixed and setprecision(k) on a nonnegative
value. -/
def fixedChars (k N : ℕ) : List Char :=
  natChars (N / 10 ^ k) ++ [('.')] ++ fracChars k (N % 10 ^ k)

/-- std::round: round half away from zero. -/
def roundHalfQ (x : ℚ) : ℤ := if 0 ≤ x then ⌊x + 1/2⌋ else -⌊-x + 1/2⌋

/-- std::string::find of the decimal point: the text before the first dot
and the text after it, or none when there is no dot. -/
def splitAtDot (l : List Char) : Option (List Char × List Char) :=
  if ('.') ∈ l then
    some (l.takeWhile (fun c => c ≠ ('.')), (l.dropWhile (fun c => c ≠ ('.'))).tail)
  else none

/-- Decimal-point surgery of to_wei (order_signer.cpp lines 90-121) on the
10-fixed-decimal print of N/10^10: split at the decimal point (appending
zeros when no point is found), pad or truncate the fractional part to the
requested number of decimals, concatenate and strip leading zeros keeping
at least one digit. -/
def to_wei_shift (N decimals : ℕ) : String :=
  let str := fixedChars 10 N
  match splitAtDot str with
  | none => String.mk (str ++ List.replicate decimals ('0'))
  | some (int_part, frac_part) =>
    let frac1 := frac_part ++ List.replicate (decimals - frac_part.length) ('0')
    let frac2 := if decimals < frac1.length then frac1.take decimals else frac1
    let result := int_part ++ frac2
    let stripped := result.dropWhile (fun c => c = ('0'))
    if stripped.isEmpty then "0" else String.mk stripped

/-- to_wei (order_signer.cpp lines 74-122): round the amount to 10
fractional digits (floor for round-down, std::round otherwise), print it
with 10 fixed decimals and do the decimal-point surgery.  The input double
is modelled as an exact rational; negative amounts are outside the
verified domain. -/
def to_wei (amount : ℚ) (decimals : ℕ) (round_down_flag : Bool) : String :=
  to_wei_shift
    (if round_down_flag then (⌊amount * 10 ^ 10⌋).toNat
     else (roundHalfQ (amount * 10 ^ 10)).toNat)
    decimals

/-- Value of a decimal digit string read back as a natural number. -/
def parseDecimalNat (s : String) : ℕ :=
  s.data.foldl (fun acc c => acc * 10 + charVal c) 0

/-- Digit-string value of a character list. -/
def pv (l : List Char) : ℕ :=
  l.foldl (fun acc c => acc * 10 + charVal c) 0

theorem pv_foldl_general (l : List Char) (acc : ℕ) :
    l.foldl (fun a c => a * 10 + charVal c) acc = acc * 10 ^ l.length + pv l := by
  induction l generalizing acc with
  | nil => simp [pv]
  | cons c t ih =>
    show t.foldl _ (acc * 10 + charVal c) = _
    rw [ih (acc * 10 + charVal c)]
    have hpt : pv (c :: t) = charVal c * 10 ^ t.length + pv t := by
      show t.foldl _ (0 * 10 + charVal c) = _
      rw [ih (0 * 10 + charVal c)]
      ring
    rw [hpt]
    simp [List.length_cons]
    ring

theorem pv_append (xs ys : List Char) :
    pv (xs ++ ys) = pv xs * 10 ^ ys.length + pv ys := by
  unfold pv
  rw [List.foldl_append]
  rw [pv_foldl_general ys (List.foldl _ 0 xs)]
  rfl

theorem charVal_digitChar (x : ℕ) (h : x < 10) : charVal (digitChar x) = x := by
  interval_cases x <;> rfl

theorem digitChar_ne_dot (x : ℕ) (h : x < 10) : digitChar x ≠ ('.') := by
  interval_cases x <;> decide

theorem charVal_digitChar_lt (x : ℕ) (h : x < 10) : charVal (digitChar x) < 10 := by
  rw [charVal_digitChar x h]
  exact h

theorem be_foldl_eq_ofDigits (ds : List ℕ) (acc : ℕ) :
    ds.foldl (fun a x => a * 10 + x) acc =
      acc * 10 ^ ds.length + Nat.ofDigits 10 ds.reverse := by
  induction ds generalizing acc with
  | nil => simp [Nat.ofDigits]
  | cons x t ih =>
    show t.foldl _ (acc * 10 + x) = _
    rw [ih (acc * 10 + x)]
    rw [List.reverse_cons, Nat.ofDigits_append]
    simp [Nat.ofDigits_singleton, List.length_cons]
    ring

theorem pv_map_digitChar (ds : List ℕ) (h : ∀ x ∈ ds, x < 10) :
    pv (ds.map digitChar) = Nat.ofDigits 10 ds.reverse := by
  have hfold : ∀ (l : List ℕ) (acc : ℕ), (∀ x ∈ l, x < 10) →
      (l.map digitChar).foldl (fun a c => a * 10 + charVal c) acc =
        l.foldl (fun a x => a * 10 + x) acc := by
    intro l
    induction l with
    | nil => intro acc _; rfl
    | cons x t ih =>
      intro acc hl
      show (t.map digitChar).foldl _ (acc * 10 + charVal (digitChar x)) = _
      rw [charVal_digitChar x (hl x (by simp))]
      exact ih (acc * 10 + x) (fun y hy => hl y (by simp [hy]))
  unfold pv
  rw [hfold ds 0 h]
  rw [be_foldl_eq_ofDigits ds 0]
  simp

theorem pv_natChars (n : ℕ) : pv (natChars n) = n := by
  by_cases hn : n = 0
  · subst hn; rfl
  · unfold natChars
    rw [if_neg hn, natDigitsLE_eq]
    have hlt : ∀ x ∈ (Nat.digits 10 n).reverse, x < 10 := by
      intro x hx
      exact Nat.digits_lt_base (by norm_num) (List.mem_reverse.1 hx)
    rw [pv_map_digitChar _ hlt]
    rw [List.reverse_reverse]
    exact Nat.ofDigits_digits 10 n

theorem pv_replicate_zero (z : ℕ) : pv (List.replicate z ('0')) = 0 := by
  induction z with
  | zero => rfl
  | succ k ih =>
    rw [List.replicate_succ]
    show (List.replicate k ('0')).foldl _ (0 * 10 + charVal ('0')) = 0
    have : (0 : ℕ) * 10 + charVal ('0') = 0 := rfl
    rw [this]
    exact ih

theorem pv_fracChars (k m : ℕ) (h : m < 10 ^ k) : pv (fracChars k m) = m := by
  unfold fracChars padZerosLeft
  rw [pv_append, pv_replicate_zero, zero_mul, zero_add]
  rw [natDigitsLE_eq]
  have hlt : ∀ x ∈ (Nat.digits 10 m).reverse, x < 10 := by
    intro x hx
    exact Nat.digits_lt_base (by norm_num) (List.mem_reverse.1 hx)
  rw [pv_map_digitChar _ hlt, List.reverse_reverse]
  exact Nat.ofDigits_digits 10 m

theorem pv_cons (c : Char) (t : List Char) :
    pv (c :: t) = charVal c * 10 ^ t.length + pv t := by
  show t.foldl _ (0 * 10 + charVal c) = _
  rw [pv_foldl_general t (0 * 10 + charVal c)]
  ring

theorem pv_lt (l : List Char) (h : ∀ c ∈ l, charVal c < 10) :
    pv l < 10 ^ l.length := by
  induction l with
  | nil => norm_num [pv]
  | cons c t ih =>
    rw [pv_cons, List.length_cons]
    have h1 : pv t < 10 ^ t.length := ih (fun x hx => h x (by simp [hx]))
    have h2 : charVal c < 10 := h c (by simp)
    calc charVal c * 10 ^ t.length + pv t
        < charVal c * 10 ^ t.length + 10 ^ t.length := by omega
      _ = (charVal c + 1) * 10 ^ t.length := by ring
      _ ≤ 10 * 10 ^ t.length := by
          exact Nat.mul_le_mul_right _ (by omega)
      _ = 10 ^ (t.length + 1) := by ring

theorem digits_length_le (m k : ℕ) (h : m < 10 ^ k) :
    (Nat.digits 10 m).length ≤ k := by
  by_cases hm : m = 0
  · subst hm; simp
  · rw [Nat.digits_len 10 m (by norm_num) hm]
    have := Nat.log_lt_of_lt_pow hm h
    omega

theorem fracChars_length (k m : ℕ) (h : m < 10 ^ k) :
    (fracChars k m).length = k := by
  unfold fracChars padZerosLeft
  rw [List.length_append, List.length_replicate, List.length_map,
    List.length_reverse, natDigitsLE_eq]
  have := digits_length_le m k h
  omega

theorem fracChars_good (k m : ℕ) :
    ∀ c ∈ fracChars k m, charVal c < 10 ∧ c ≠ ('.') := by
  intro c hc
  unfold fracChars padZerosLeft at hc
  rcases List.mem_append.1 hc with hr | hm
  · have hc0 : c = ('0') := List.eq_of_mem_replicate hr
    subst hc0
    exact ⟨by decide, by decide⟩
  · rcases List.mem_map.1 hm with ⟨d, hd, rfl⟩
    rw [natDigitsLE_eq] at hd
    have hd10 : d < 10 :=
      Nat.digits_lt_base (by norm_num) (List.mem_reverse.1 hd)
    exact ⟨charVal_digitChar_lt d hd10, digitChar_ne_dot d hd10⟩

theorem dot_not_mem_natChars (n : ℕ) : ('.') ∉ natChars n := by
  unfold natChars
  by_cases hn : n = 0
  · rw [if_pos hn]
    decide
  · rw [if_neg hn]
    intro hmem
    rcases List.mem_map.1 hmem with ⟨d, hd, hdc⟩
    rw [natDigitsLE_eq] at hd
    have hd10 : d < 10 :=
      Nat.digits_lt_base (by norm_num) (List.mem_reverse.1 hd)
    exact digitChar_ne_dot d hd10 hdc

theorem dropWhile_append_all {α : Type} (p : α → Bool) (xs ys : List α)
    (h : ∀ x ∈ xs, p x = true) :
    (xs ++ ys).dropWhile p = ys.dropWhile p := by
  induction xs with
  | nil => rfl
  | cons x rest ih =>
    have hx := h x (by simp)
    simp only [List.cons_append, List.dropWhile_cons, hx]
    exact ih (fun y hy => h y (by simp [hy]))

theorem splitAtDot_spec (A B : List Char) (hA : ('.') ∉ A) :
    splitAtDot (A ++ [('.')] ++ B) = some (A, B) := by
  unfold splitAtDot
  have hmem : ('.') ∈ A ++ [('.')] ++ B := by simp
  rw [if_pos hmem]
  have hall : ∀ x ∈ A, (fun c => decide (c ≠ ('.'))) x = true := by
    intro x hx
    simp only [decide_eq_true_eq]
    intro hcc
    exact hA (hcc ▸ hx)
  rw [List.append_assoc, List.singleton_append]
  rw [takeWhile_append_all _ A _ hall, dropWhile_append_all _ A _ hall]
  simp

theorem pv_dropWhile_zero (l : List Char) :
    pv (l.dropWhile (fun c => c = ('0'))) = pv l := by
  induction l with
  | nil => rfl
  | cons c t ih =>
    by_cases hc : c = ('0')
    · subst hc
      rw [show (('0') :: t).dropWhile (fun c => c = ('0')) =
          t.dropWhile (fun c => c = ('0')) from by
        simp [List.dropWhile_cons]]
      rw [ih, pv_cons]
      have hz : charVal ('0') = 0 := rfl
      rw [hz, zero_mul, zero_add]
    · rw [show ((c :: t).dropWhile (fun x => x = ('0'))) = c :: t from by
        simp [List.dropWhile_cons, hc]]

theorem pv_take_fracChars (k d m : ℕ) (hd : d ≤ k) (hm : m < 10 ^ k) :
    pv ((fracChars k m).take d) = m / 10 ^ (k - d) := by
  have hlen := fracChars_length k m hm
  have hsplit : fracChars k m = (fracChars k m).take d ++ (fracChars k m).drop d :=
    (List.take_append_drop d (fracChars k m)).symm
  have hdroplen : ((fracChars k m).drop d).length = k - d := by
    rw [List.length_drop, hlen]
  have hm_eq : m = pv ((fracChars k m).take d) * 10 ^ (k - d) + pv ((fracChars k m).drop d) := by
    conv_lhs => rw [← pv_fracChars k m hm]
    conv_lhs => rw [hsplit]
    rw [pv_append, hdroplen]
  have hbound : pv ((fracChars k m).drop d) < 10 ^ (k - d) := by
    have hgood : ∀ c ∈ (fracChars k m).drop d, charVal c < 10 := by
      intro c hc
      exact (fracChars_good k m c (List.mem_of_mem_drop hc)).1
    have := pv_lt _ hgood
    rwa [hdroplen] at this
  conv_rhs => rw [hm_eq]
  rw [Nat.add_comm, Nat.add_mul_div_right _ _ (Nat.pos_pow_of_pos _ (by norm_num))]
  rw [Nat.div_eq_of_lt hbound, Nat.zero_add]

theorem floor_scale (a : ℚ) (d : ℕ) (ha : 0 ≤ a) (hd : d ≤ 10) :
    (⌊a * 10 ^ 10⌋).toNat / 10 ^ (10 - d) = (⌊a * 10 ^ d⌋).toNat := by
  rw [Int.floor_toNat, Int.floor_toNat]
  rw [← Nat.floor_div_nat (a * 10 ^ 10) (10 ^ (10 - d))]
  congr 1
  push_cast
  rw [show (10 : ℚ) ^ 10 = 10 ^ d * 10 ^ (10 - d) from by
    rw [← pow_add]
    congr 1
    omega]
  rw [← mul_assoc, mul_div_assoc, div_self (by positivity), mul_one]

/-- Value of the decimal-point shift: reading the produced digit string
back gives N with the last 10-d digits cut off. -/
theorem to_wei_shift_value (N d : ℕ) (hd : d ≤ 10) :
    parseDecimalNat (to_wei_shift N d) = N / 10 ^ (10 - d) := by
  have hmlt : N % 10 ^ 10 < 10 ^ 10 := Nat.mod_lt _ (by norm_num)
  have hfl : (fracChars 10 (N % 10 ^ 10)).length = 10 :=
    fracChars_length 10 _ hmlt
  have harith : N / 10 ^ (10 - d) =
      N / 10 ^ 10 * 10 ^ d + N % 10 ^ 10 / 10 ^ (10 - d) := by
    conv_lhs => rw [← Nat.div_add_mod N (10 ^ 10)]
    rw [show (10 : ℕ) ^ 10 = 10 ^ (10 - d) * 10 ^ d from by
      rw [← pow_add]
      congr 1
      omega]
    rw [show 10 ^ (10 - d) * 10 ^ d * (N / (10 ^ (10 - d) * 10 ^ d)) =
        10 ^ d * (N / (10 ^ (10 - d) * 10 ^ d)) * 10 ^ (10 - d) from by ring]
    rw [Nat.add_comm, Nat.add_mul_div_right _ _
      (Nat.pos_pow_of_pos _ (by norm_num))]
    ring
  unfold to_wei_shift
  unfold fixedChars
  simp only [splitAtDot_spec (natChars (N / 10 ^ 10)) (fracChars 10 (N % 10 ^ 10))
    (dot_not_mem_natChars _)]
  have h1 : fracChars 10 (N % 10 ^ 10) ++
      List.replicate (d - (fracChars 10 (N % 10 ^ 10)).length) ('0') =
      fracChars 10 (N % 10 ^ 10) := by
    rw [hfl, show d - 10 = 0 from by omega]
    simp
  rw [h1]
  have h2 : (if d < (fracChars 10 (N % 10 ^ 10)).length then
      (fracChars 10 (N % 10 ^ 10)).take d else fracChars 10 (N % 10 ^ 10)) =
      (fracChars 10 (N % 10 ^ 10)).take d := by
    rw [hfl]
    by_cases hc : d < 10
    · rw [if_pos hc]
    · rw [if_neg hc]
      have hde : d = 10 := by omega
      subst hde
      exact (List.take_of_length_le (le_of_eq hfl)).symm
  rw [h2]
  have htakelen : ((fracChars 10 (N % 10 ^ 10)).take d).length = d := by
    rw [List.length_take, hfl]
    omega
  have hpvR : pv (natChars (N / 10 ^ 10) ++ (fracChars 10 (N % 10 ^ 10)).take d) =
      N / 10 ^ 10 * 10 ^ d + N % 10 ^ 10 / 10 ^ (10 - d) := by
    rw [pv_append, htakelen, pv_natChars, pv_take_fracChars 10 d _ hd hmlt]
  by_cases hempty :
      ((natChars (N / 10 ^ 10) ++ (fracChars 10 (N % 10 ^ 10)).take d).dropWhile
        (fun c => c = ('0'))).isEmpty = true
  · rw [if_pos hempty]
    have h0 : pv (natChars (N / 10 ^ 10) ++ (fracChars 10 (N % 10 ^ 10)).take d) = 0 := by
      have hpd := pv_dropWhile_zero
        (natChars (N / 10 ^ 10) ++ (fracChars 10 (N % 10 ^ 10)).take d)
      rw [List.isEmpty_iff.1 hempty] at hpd
      exact hpd.symm
    have hz : N / 10 ^ 10 * 10 ^ d + N % 10 ^ 10 / 10 ^ (10 - d) = 0 := by
      rw [← hpvR, h0]
    show (0 : ℕ) = N / 10 ^ (10 - d)
    omega
  · rw [if_neg hempty]
    show pv ((natChars (N / 10 ^ 10) ++ (fracChars 10 (N % 10 ^ 10)).take d).dropWhile
      (fun c => c = ('0'))) = N / 10 ^ (10 - d)
    rw [pv_dropWhile_zero, hpvR, harith]

/-- C1: for every decimal amount a at least 0 and d in 2..8, the
round-down base-unit conversion returns a decimal string that parses
back, as a rational, to floor(a * 10^d) / 10^d: the amount is floored to
10 fractional digits on which the decimal point is textually shifted d
places; and in particular to_wei of 3.03 with 6 decimals is the string
3030000. -/
theorem to_base_units_round_trip (a : ℚ) (d : ℕ) (ha : 0 ≤ a)
    (hd2 : 2 ≤ d) (hd8 : d ≤ 8) :
    ((parseDecimalNat (to_wei a d true) : ℚ) / 10 ^ d =
      (⌊a * 10 ^ d⌋ : ℚ) / 10 ^ d) ∧
    to_wei ((303 : ℚ)/100) 6 true = "3030000" := by
  constructor
  · have h1 : parseDecimalNat (to_wei a d true) =
        (⌊a * 10 ^ 10⌋).toNat / 10 ^ (10 - d) := by
      rw [show to_wei a d true = to_wei_shift ((⌊a * 10 ^ 10⌋).toNat) d from rfl]
      exact to_wei_shift_value _ d (by omega)
    rw [h1, floor_scale a d ha (by omega)]
    congr 1
    have hnn : 0 ≤ ⌊a * 10 ^ d⌋ := Int.floor_nonneg.2 (by positivity)
    exact_mod_cast congrArg (fun z : ℤ => (z : ℚ)) (Int.toNat_of_nonneg hnn)
  · with_unfolding_all rfl

/-- Witness for the base-unit round trip at amount 3.03 with 6 decimals. -/
theorem to_base_units_round_trip_witness :
    (0 : ℚ) ≤ 303/100 ∧ 2 ≤ 6 ∧ 6 ≤ 8 ∧
    (((parseDecimalNat (to_wei ((303 : ℚ)/100) 6 true) : ℚ) / 10 ^ 6 =
       (⌊((303 : ℚ)/100) * 10 ^ 6⌋ : ℚ) / 10 ^ 6) ∧
     to_wei ((303 : ℚ)/100) 6 true = "3030000") :=
  ⟨by norm_num, by norm_num, by norm_num,
    to_base_units_round_trip ((303 : ℚ)/100) 6 (by norm_num) (by norm_num) (by norm_num)⟩

/-- Largest power of ten up to 10^12 dividing n, used to strip the
trailing zeros of a printed 12-digit fraction. -/
def trailingPow (n : ℤ) : ℕ :=
  ((List.range 13).filter (fun k => (10 ^ k : ℤ) ∣ n)).foldr max 0

/-- decimal_places (clob_client.cpp lines 78-106): 0 for integral values;
otherwise print the value with 12 fixed decimals and count the fractional
digits left after stripping trailing zeros.  The 12-decimal print of the
rational is its half-away-from-zero rounding at 12 decimals. -/
def decimal_places (v : ℚ) : ℕ :=
  if v.den = 1 then 0
  else 12 - trailingPow (roundHalfQ (v * 10 ^ 12))

/-- round_normal (clob_client.cpp lines 108-116): identity when the value
already fits; otherwise std::round after adding the double epsilon 2^-52,
at the requested scale. -/
def round_normal (v : ℚ) (d : ℕ) : ℚ :=
  if decimal_places v ≤ d then v
  else (roundHalfQ ((v + 1 / 2 ^ 52) * 10 ^ d) : ℚ) / 10 ^ d

/-- round_down (clob_client.cpp lines 118-126). -/
def round_down (v : ℚ) (d : ℕ) : ℚ :=
  if decimal_places v ≤ d then v
  else (⌊v * 10 ^ d⌋ : ℚ) / 10 ^ d

/-- round_up (clob_client.cpp lines 128-136). -/
def round_up (v : ℚ) (d : ℕ) : ℚ :=
  if decimal_places v ≤ d then v
  else (⌈v * 10 ^ d⌉ : ℚ) / 10 ^ d

/-- Tick-size rounding configuration (clob_client.cpp lines 27-32). -/
structure RoundConfig where
  price : ℕ
  size : ℕ
  amount : ℕ
  deriving DecidableEq, Repr

/-- The four supported tick sizes (clob_client.cpp lines 34-39). -/
def kRoundingConfig : List (String × RoundConfig) :=
  [(("0.1"), ⟨1, 2, 3⟩), (("0.01"), ⟨2, 2, 4⟩),
   (("0.001"), ⟨3, 2, 5⟩), (("0.0001"), ⟨4, 2, 6⟩)]

/-- std::stod on the decimal strings used by the client: an optional
integer part, an optional dot and fraction; none models the exception on
a string with no leading numeric prefix.  Exponents and signs do not occur
in tick-size strings and are not modelled. -/
def stodQ (s : String) : Option ℚ :=
  let l := s.data
  let ip := l.takeWhile (fun c => c.isDigit)
  let rest := l.drop ip.length
  match rest with
  | ('.') :: frac0 =>
    let fp := frac0.takeWhile (fun c => c.isDigit)
    if ip.isEmpty && fp.isEmpty then none
    else some ((pv ip : ℚ) + (pv fp : ℚ) / 10 ^ fp.length)
  | _ => if ip.isEmpty then none else some ((pv ip : ℚ))

/-- Strip the trailing zeros of the fractional part of a printed decimal,
dropping the decimal point when nothing remains behind it
(clob_client.cpp lines 48-64). -/
def stripTrailingFracZeros (l : List Char) : List Char :=
  if ('.') ∈ l then
    let r := (l.reverse.dropWhile (fun c => c = ('0'))).reverse
    if r.getLast? = some ('.') then r.dropLast else r
  else l

/-- normalize_tick_size (clob_client.cpp lines 41-65): parse with stod,
print with 6 fixed decimals and strip trailing fractional zeros. -/
def normalize_tick_size (s : String) : Option String :=
  match stodQ s with
  | none => none
  | some q =>
    some (String.mk (stripTrailingFracZeros
      (fixedChars 6 ((roundHalfQ (q * 10 ^ 6)).toNat))))

/-- get_round_config (clob_client.cpp lines 138-147): none models the
unsupported-tick-size exception. -/
def get_round_config (tick_size : String) : Option RoundConfig :=
  match normalize_tick_size tick_size with
  | none => none
  | some n => alookup n kRoundingConfig

/-- price_valid (clob_client.cpp lines 72-76): none models the stod
exception on an unparseable tick size. -/
def price_valid (price : ℚ) (tick_size : String) : Option Bool :=
  match stodQ tick_size with
  | none => none
  | some tick => some (decide (tick ≤ price ∧ price ≤ 1 - tick))

/-- Amount derivation of ClobClient::create_market_order_v2
(clob_client.cpp lines 1061-1100): validate the price against the tick,
resolve the rounding config, round the price normally at price decimals,
round the input amount down at size decimals, derive the taker amount by
division (BUY) or multiplication (SELL) and apply the two-stage rounding
when it carries too many decimals. -/
def market_order_amounts (tick_size : String) (price amount : ℚ)
    (side : OrderSide) : Except String (ℚ × ℚ × ℚ) :=
  match price_valid price tick_size with
  | none => .error ("invalid tick size: " ++ tick_size)
  | some false => .error ("invalid price")
  | some true =>
    match get_round_config tick_size with
    | none => .error ("unsupported tick size: " ++ tick_size)
    | some cfg =>
      let raw_price := round_normal price cfg.price
      let raw_maker := round_down amount cfg.size
      let raw_taker0 :=
        match side with
        | .BUY => raw_maker / raw_price
        | .SELL => raw_maker * raw_price
      let raw_taker :=
        if cfg.amount < decimal_places raw_taker0 then
          let t1 := round_up raw_taker0 (cfg.amount + 4)
          if cfg.amount < decimal_places t1 then round_down t1 cfg.amount else t1
        else raw_taker0
      .ok (raw_price, raw_maker, raw_taker)

/-- The two-stage taker rounding as the specification words it: when the
taker amount has more than amount_d decimal places, first round up to
amount_d + 4 decimals, and only if it still has too many decimals round
down to amount_d decimals. -/
def taker_two_stage (t : ℚ) (amount_d : ℕ) : ℚ :=
  if amount_d < decimal_places t then
    (if amount_d < decimal_places (round_up t (amount_d + 4))
     then round_down (round_up t (amount_d + 4)) amount_d
     else round_up t (amount_d + 4))
  else t

/-- C4: for a market order whose price p satisfies tick <= p <= 1 - tick
under a supported (parseable) tick size, the derivation returns
raw_price = round_normal(p, price_d), raw_maker = round_down(amount,
size_d) and the taker amount equal to the two-stage rounding of
raw_maker / raw_price for BUY respectively raw_maker * raw_price for
SELL. -/
theorem market_order_amount_derivation (tick : String) (p amount : ℚ)
    (side : OrderSide) (t : ℚ) (cfg : RoundConfig)
    (hstod : stodQ tick = some t)
    (hcfg : get_round_config tick = some cfg)
    (hp : t ≤ p ∧ p ≤ 1 - t) :
    market_order_amounts tick p amount side =
      .ok (round_normal p cfg.price, round_down amount cfg.size,
        taker_two_stage
          (match side with
           | .BUY => round_down amount cfg.size / round_normal p cfg.price
           | .SELL => round_down amount cfg.size * round_normal p cfg.price)
          cfg.amount) := by
  have hpv : price_valid p tick = some true := by
    unfold price_valid
    rw [hstod]
    show some (decide (t ≤ p ∧ p ≤ 1 - t)) = some true
    rw [decide_eq_true hp]
  unfold market_order_amounts
  rw [hpv, hcfg]
  unfold taker_two_stage
  cases side <;> rfl

/-- Witness for the amount derivation at tick 0.01, price 0.57, amount 1,
side BUY (the tick-0.01 pricing scenario of the specification). -/
theorem market_order_amount_derivation_witness :
    stodQ ("0.01") = some (1/100) ∧
    get_round_config ("0.01") = some ⟨2, 2, 4⟩ ∧
    ((1:ℚ)/100 ≤ 57/100 ∧ (57:ℚ)/100 ≤ 1 - 1/100) ∧
    market_order_amounts ("0.01") (57/100) 1 OrderSide.BUY =
      .ok (round_normal (57/100) (2:ℕ), round_down 1 (2:ℕ),
        taker_two_stage (round_down 1 (2:ℕ) / round_normal (57/100) (2:ℕ)) 4) :=
  ⟨by with_unfolding_all decide, by with_unfolding_all decide,
    by constructor <;> norm_num,
    market_order_amount_derivation ("0.01") (57/100) 1 OrderSide.BUY (1/100)
      ⟨2, 2, 4⟩ (by with_unfolding_all decide) (by with_unfolding_all decide)
      (by constructor <;> norm_num)⟩

/-- 32-bit modular addition. -/
def add32 (a b : ℕ) : ℕ := (a + b) % 4294967296

/-- 32-bit right rotation. -/
def rotr32 (x n : ℕ) : ℕ := ((x >>> n) ||| (x <<< (32 - n))) % 4294967296

/-- SHA-256 big sigma 0. -/
def bsig0 (x : ℕ) : ℕ := rotr32 x 2 ^^^ rotr32 x 13 ^^^ rotr32 x 22

/-- SHA-256 big sigma 1. -/
def bsig1 (x : ℕ) : ℕ := rotr32 x 6 ^^^ rotr32 x 11 ^^^ rotr32 x 25

/-- SHA-256 small sigma 0. -/
def ssig0 (x : ℕ) : ℕ := rotr32 x 7 ^^^ rotr32 x 18 ^^^ (x >>> 3)

/-- SHA-256 small sigma 1. -/
def ssig1 (x : ℕ) : ℕ := rotr32 x 17 ^^^ rotr32 x 19 ^^^ (x >>> 10)

/-- SHA-256 choose. -/
def chF (x y z : ℕ) : ℕ := (x &&& y) ^^^ ((x ^^^ 4294967295) &&& z)

/-- SHA-256 majority. -/
def majF (x y z : ℕ) : ℕ := (x &&& y) ^^^ (x &&& z) ^^^ (y &&& z)

/-- SHA-256 round constants. -/
def sha256K : List ℕ :=
  [1116352408, 1899447441, 3049323471, 3921009573,
   961987163, 1508970993, 2453635748, 2870763221,
   3624381080, 310598401, 607225278, 1426881987,
   1925078388, 2162078206, 2614888103, 3248222580,
   3835390401, 4022224774, 264347078, 604807628,
   770255983, 1249150122, 1555081692, 1996064986,
   2554220882, 2821834349, 2952996808, 3210313671,
   3336571891, 3584528711, 113926993, 338241895,
   666307205, 773529912, 1294757372, 1396182291,
   1695183700, 1986661051, 2177026350, 2456956037,
   2730485921, 2820302411, 3259730800, 3345764771,
   3516065817, 3600352804, 4094571909, 275423344,
   430227734, 506948616, 659060556, 883997877,
   958139571, 1322822218, 1537002063, 1747873779,
   1955562222, 2024104815, 2227730452, 2361852424,
   2428436474, 2756734187, 3204031479, 3329325298]

/-- SHA-256 initial hash value. -/
def sha256H0 : List ℕ :=
  [1779033703, 3144134277, 1013904242, 2773480762,
   1359893119, 2600822924, 528734635, 1541459225]

/-- Message-schedule expansion of one 16-word block to 64 words. -/
def scheduleW (block : List ℕ) : Array ℕ :=
  (List.range 48).foldl
    (fun w i =>
      w.push (add32 (add32 (ssig1 (w.getD (i + 14) 0)) (w.getD (i + 9) 0))
        (add32 (ssig0 (w.getD (i + 1) 0)) (w.getD i 0))))
    block.toArray

/-- SHA-256 working state. -/
structure Sha256State where
  a : ℕ
  b : ℕ
  c : ℕ
  d : ℕ
  e : ℕ
  f : ℕ
  g : ℕ
  h : ℕ

/-- One SHA-256 compression round. -/
def sha256Round (st : Sha256State) (ki wi : ℕ) : Sha256State :=
  let t1 := add32 (add32 (add32 st.h (bsig1 st.e)) (add32 (chF st.e st.f st.g) ki)) wi
  let t2 := add32 (bsig0 st.a) (majF st.a st.b st.c)
  { a := add32 t1 t2, b := st.a, c := st.b, d := st.c,
    e := add32 st.d t1, f := st.e, g := st.f, h := st.g }

/-- SHA-256 compression of one block. -/
def sha256Compress (H : List ℕ) (block : List ℕ) : List ℕ :=
  let w := scheduleW block
  let i0 : Sha256State :=
    { a := H.getD 0 0, b := H.getD 1 0, c := H.getD 2 0, d := H.getD 3 0,
      e := H.getD 4 0, f := H.getD 5 0, g := H.getD 6 0, h := H.getD 7 0 }
  let fin := (List.range 64).foldl
    (fun st i => sha256Round st (sha256K.getD i 0) (w.getD i 0)) i0
  [add32 (H.getD 0 0) fin.a, add32 (H.getD 1 0) fin.b,
   add32 (H.getD 2 0) fin.c, add32 (H.getD 3 0) fin.d,
   add32 (H.getD 4 0) fin.e, add32 (H.getD 5 0) fin.f,
   add32 (H.getD 6 0) fin.g, add32 (H.getD 7 0) fin.h]

/-- Big-endian 8-byte encoding of a length in bits. -/
def be64 (n : ℕ) : List ℕ :=
  [(n >>> 56) &&& 255, (n >>> 48) &&& 255, (n >>> 40) &&& 255,
   (n >>> 32) &&& 255, (n >>> 24) &&& 255, (n >>> 16) &&& 255,
   (n >>> 8) &&& 255, n &&& 255]

/-- SHA-256 padding. -/
def sha256Pad (msg : List ℕ) : List ℕ :=
  msg ++ [0x80] ++ List.replicate ((119 - msg.length % 64) % 64) 0 ++
    be64 (msg.length * 8)

/-- Big-endian bytes to 32-bit words. -/
def bytesToWords : List ℕ → List ℕ
  | b0 :: b1 :: b2 :: b3 :: rest =>
    ((((b0 <<< 8) ||| b1) <<< 8 ||| b2) <<< 8 ||| b3) :: bytesToWords rest
  | _ => []

/-- Iterate the compression function over the 16-word blocks. -/
def sha256BlocksAux : ℕ → List ℕ → List ℕ → List ℕ
  | 0, H, _ => H
  | fuel + 1, H, ws =>
    if ws.isEmpty then H
    else sha256BlocksAux fuel (sha256Compress H (ws.take 16)) (ws.drop 16)

/-- SHA-256 of a byte list (bytes are naturals below 256). -/
def sha256 (msg : List ℕ) : List ℕ :=
  let ws := bytesToWords (sha256Pad msg)
  let H := sha256BlocksAux ws.length sha256H0 ws
  H.foldr (fun w acc =>
    ((w >>> 24) &&& 255) :: ((w >>> 16) &&& 255) :: ((w >>> 8) &&& 255) ::
      (w &&& 255) :: acc) []

/-- HMAC-SHA256, modelling the OpenSSL HMAC call of generate_l2_headers
(order_signer.cpp lines 633-636). -/
def hmacSha256 (key msg : List ℕ) : List ℕ :=
  let k0 := if 64 < key.length then sha256 key else key
  let k1 := k0 ++ List.replicate (64 - k0.length) 0
  sha256 ((k1.map (fun b => b ^^^ 0x5c)) ++
    sha256 ((k1.map (fun b => b ^^^ 0x36)) ++ msg))

/-- Bytes of a string (the header strings are ASCII, where UTF-8 bytes and
code points coincide). -/
def strBytes (s : String) : List ℕ := s.data.map Char.toNat

/-- Value table of base64_decode (order_signer.cpp lines 133-161): the
standard alphabet with the URL-safe variants also mapped. -/
def base64Table (c : Char) : Option ℕ :=
  if c = ('-') then some 62
  else if c = ('_') then some 63
  else ("ABCDEFGHIJKLMNOPQRSTUVWXYZabcdefghijklmnopqrstuvwxyz0123456789+/").data.findIdx?
    (fun x => x = c)

/-- Decode loop of base64_decode: 6 bits per valid character, unknown
characters skipped, stop at the first padding character. -/
def b64DecodeGo : List Char → ℕ → ℤ → List ℕ → List ℕ
  | [], _, _, acc => acc
  | c :: rest, val, valb, acc =>
    if c = ('=') then acc
    else
      match base64Table c with
      | none => b64DecodeGo rest val valb acc
      | some v =>
        let val2 := (val <<< 6) + v
        let valb2 := valb + 6
        if 0 ≤ valb2 then
          b64DecodeGo rest val2 (valb2 - 8) (acc ++ [(val2 >>> valb2.toNat) &&& 255])
        else b64DecodeGo rest val2 valb2 acc

/-- base64_decode (order_signer.cpp lines 133-161). -/
def base64_decode (s : String) : List ℕ := b64DecodeGo s.data 0 (-8) []

/-- The two encode alphabets of base64_encode (order_signer.cpp lines
166-170). -/
def b64chars (url_safe : Bool) : List Char :=
  if url_safe then
    ("ABCDEFGHIJKLMNOPQRSTUVWXYZabcdefghijklmnopqrstuvwxyz0123456789-_").data
  else
    ("ABCDEFGHIJKLMNOPQRSTUVWXYZabcdefghijklmnopqrstuvwxyz0123456789+/").data

/-- Encode loop of base64_encode (order_signer.cpp lines 172-183): 8 bits
in per byte, 6 bits out per emitted character; the inner while loop runs at
most twice per byte and is unrolled. -/
def b64EncodeGo (chars : List Char) : List ℕ → ℕ → ℤ → List Char → List Char × ℕ × ℤ
  | [], val, valb, out => (out, val, valb)
  | b :: rest, val, valb, out =>
    let val2 := (val <<< 8) + b
    let valb2 := valb + 8
    if 0 ≤ valb2 then
      let out2 := out ++ [chars.getD ((val2 >>> valb2.toNat) &&& 63) ('A')]
      let valb3 := valb2 - 6
      if 0 ≤ valb3 then
        b64EncodeGo chars rest val2 (valb3 - 6)
          (out2 ++ [chars.getD ((val2 >>> valb3.toNat) &&& 63) ('A')])
      else b64EncodeGo chars rest val2 valb3 out2
    else b64EncodeGo chars rest val2 valb2 out

/-- base64_encode (order_signer.cpp lines 163-192): encode loop, one tail
character when bits remain, then padding with = to a multiple of 4. -/
def base64_encode (data : List ℕ) (url_safe : Bool) : String :=
  let chars := b64chars url_safe
  let r := b64EncodeGo chars data 0 (-6) []
  let out2 :=
    if (-6 : ℤ) < r.2.2 then
      r.1 ++ [chars.getD (((r.2.1 <<< 8) >>> (r.2.2 + 8).toNat) &&& 63) ('A')]
    else r.1
  String.mk (out2 ++ List.replicate ((4 - out2.length % 4) % 4) ('='))

/-- API credentials (order_signer.hpp). -/
structure ApiCredentials where
  api_key : String
  api_secret : String
  api_passphrase : String

/-- L2 headers (order_signer.hpp). -/
structure L2Headers where
  poly_address : String
  poly_signature : String
  poly_timestamp : String
  poly_api_key : String
  poly_passphrase : String
  poly_secret : String

/-- OrderSigner::generate_l2_headers (order_signer.cpp lines 613-652):
message is timestamp, method, path concatenated, the body appended only
when non-empty; HMAC-SHA256 under the base64-decoded secret; signature in
URL-safe base64.  The wall-clock timestamp is passed as a parameter. -/
def generate_l2_headers (address : String) (creds : ApiCredentials)
    (timestamp method path body : String) : L2Headers :=
  let message := timestamp ++ method ++ path
  let message2 := if body.isEmpty then message else message ++ body
  let secret_bytes := base64_decode creds.api_secret
  let hmac := hmacSha256 secret_bytes (strBytes message2)
  let signature := base64_encode hmac true
  { poly_address := address, poly_signature := signature,
    poly_timestamp := timestamp, poly_api_key := creds.api_key,
    poly_passphrase := creds.api_passphrase, poly_secret := creds.api_secret }

theorem b64EncodeGo_chars (chars : List Char) (hlen : chars.length = 64) :
    ∀ (input : List ℕ) (val : ℕ) (valb : ℤ) (out : List Char),
      (∀ c ∈ out, c ∈ chars) →
      ∀ c ∈ (b64EncodeGo chars input val valb out).1, c ∈ chars := by
  have hgd : ∀ i : ℕ, chars.getD (i &&& 63) ('A') ∈ chars := by
    intro i
    have hlt : i &&& 63 < chars.length := by
      rw [hlen]
      have := Nat.and_le_right (n := i) (m := 63)
      omega
    rw [List.getD_eq_getElem _ _ hlt]
    exact List.getElem_mem hlt
  intro input
  induction input with
  | nil =>
    intro val valb out hout c hc
    exact hout c hc
  | cons b rest ih =>
    intro val valb out hout c hc
    by_cases h1 : (0 : ℤ) ≤ valb + 8
    · by_cases h2 : (0 : ℤ) ≤ valb + 8 - 6
      · rw [show b64EncodeGo chars (b :: rest) val valb out =
            b64EncodeGo chars rest ((val <<< 8) + b) (valb + 8 - 6 - 6)
              ((out ++ [chars.getD ((((val <<< 8) + b) >>> (valb + 8).toNat) &&& 63) ('A')]) ++
                [chars.getD ((((val <<< 8) + b) >>> (valb + 8 - 6).toNat) &&& 63) ('A')])
            from by
          simp only [b64EncodeGo, if_pos h1, if_pos h2]] at hc
        refine ih ((val <<< 8) + b) (valb + 8 - 6 - 6) _ ?_ c hc
        intro x hx
        rcases List.mem_append.1 hx with hx | hx
        · rcases List.mem_append.1 hx with hx | hx
          · exact hout x hx
          · rw [List.mem_singleton.1 hx]
            exact hgd _
        · rw [List.mem_singleton.1 hx]
          exact hgd _
      · rw [show b64EncodeGo chars (b :: rest) val valb out =
            b64EncodeGo chars rest ((val <<< 8) + b) (valb + 8 - 6)
              (out ++ [chars.getD ((((val <<< 8) + b) >>> (valb + 8).toNat) &&& 63) ('A')])
            from by
          simp only [b64EncodeGo, if_pos h1, if_neg h2]] at hc
        refine ih ((val <<< 8) + b) (valb + 8 - 6) _ ?_ c hc
        intro x hx
        rcases List.mem_append.1 hx with hx | hx
        · exact hout x hx
        · rw [List.mem_singleton.1 hx]
          exact hgd _
    · rw [show b64EncodeGo chars (b :: rest) val valb out =
          b64EncodeGo chars rest ((val <<< 8) + b) (valb + 8) out from by
        simp only [b64EncodeGo, if_neg h1]] at hc
      exact ih ((val <<< 8) + b) (valb + 8) out hout c hc

theorem base64_encode_charset (data : List ℕ) (url_safe : Bool) :
    ∀ c ∈ (base64_encode data url_safe).data,
      c ∈ b64chars url_safe ∨ c = ('=') := by
  intro c hc
  have hlen : (b64chars url_safe).length = 64 := by
    cases url_safe <;> decide
  have hgd : ∀ i : ℕ, (b64chars url_safe).getD (i &&& 63) ('A') ∈ b64chars url_safe := by
    intro i
    have hlt : i &&& 63 < (b64chars url_safe).length := by
      rw [hlen]
      have := Nat.and_le_right (n := i) (m := 63)
      omega
    rw [List.getD_eq_getElem _ _ hlt]
    exact List.getElem_mem hlt
  unfold base64_encode at hc
  simp only [String.data] at hc
  rcases List.mem_append.1 hc with hc | hc
  · by_cases htail : (-6 : ℤ) < (b64EncodeGo (b64chars url_safe) data 0 (-6) []).2.2
    · rw [if_pos htail] at hc
      rcases List.mem_append.1 hc with hc | hc
      · exact Or.inl (b64EncodeGo_chars (b64chars url_safe) hlen data 0 (-6) []
          (fun x hx => absurd hx (List.not_mem_nil x)) c hc)
      · rw [List.mem_singleton.1 hc]
        exact Or.inl (hgd _)
    · rw [if_neg htail] at hc
      exact Or.inl (b64EncodeGo_chars (b64chars url_safe) hlen data 0 (-6) []
        (fun x hx => absurd hx (List.not_mem_nil x)) c hc)
  · exact Or.inr (List.eq_of_mem_replicate hc)

/-- C2: the L2 header generator computes the HMAC message as
timestamp, method, path and body concatenated with no separators (an
empty body contributing nothing), HMAC-SHA256 under the base64-decoded
api_secret, and emits POLY_SIGNATURE in URL-safe base64: every character
of the signature is from the URL-safe alphabet (with - and _) or the =
padding. -/
theorem l2_signature_spec (address : String) (creds : ApiCredentials)
    (timestamp method path body : String) :
    (generate_l2_headers address creds timestamp method path body).poly_signature =
      base64_encode
        (hmacSha256 (base64_decode creds.api_secret)
          (strBytes (timestamp ++ method ++ path ++ body))) true ∧
    ∀ c ∈ (generate_l2_headers address creds timestamp method path
        body).poly_signature.data,
      c ∈ b64chars true ∨ c = ('=') := by
  have hmsg :
      (generate_l2_headers address creds timestamp method path body).poly_signature =
        base64_encode
          (hmacSha256 (base64_decode creds.api_secret)
            (strBytes (timestamp ++ method ++ path ++ body))) true := by
    unfold generate_l2_headers
    by_cases hb : body.isEmpty
    · simp only [if_pos hb]
      have hbe : body = "" := (String.isEmpty_iff body).1 hb
      rw [hbe, String.append_empty]
    · simp only [if_neg hb]
  refine ⟨hmsg, ?_⟩
  rw [hmsg]
  exact base64_encode_charset _ true

set_option maxRecDepth 100000 in
/-- The specification's L2 test vector: secret base64 dGVzdHNlY3JldA==
(testsecret), timestamp 1700000000, POST /order with body the empty JSON
object; the signature matches the byte-exact OpenSSL reference. -/
theorem l2_signature_test_vector :
    (generate_l2_headers ("0xabc")
      { api_key := "k", api_secret := "dGVzdHNlY3JldA==", api_passphrase := "p" }
      ("1700000000") ("POST") ("/order") ("\x7b\x7d")).poly_signature =
      "IA11ouH10kxd7fpV4wSldOtb-tGnZx1a8oFsH0fkT2A=" := by
  with_unfolding_all rfl

/-- Market-order parameters (clob_client.hpp, CreateMarketOrderParams)
restricted to the fields read by the async pipeline; authenticated models
the presence of api_creds_ and order_signer_. -/
structure MOParams where
  authenticated : Bool
  strict_no_fetch : Bool
  tick_size : Option String
  price : Option ℚ
  neg_risk : Option Bool
  fee_rate_bps : String
  fee_rate_bps_provided : Bool
  amount : ℚ
  side : OrderSide
  order_type : OrderType
  client_order_id : String

/-- Outcome of one async GET as the pipeline sees it: transport failure,
JSON parse failure, or the parsed value. -/
inductive FetchR (α : Type) where
  | httpError
  | parseError
  | ok (a : α)

/-- Outcome of the final async POST /order. -/
structure PostR where
  ok : Bool
  parsed_success : Bool
  parsed_error_msg : String
  parsed_status : String
  http_error : String
  status_code : ℕ

/-- Environment of the pipeline: the responses the transport would deliver
for each endpoint it may probe.  Each async request invokes its completion
exactly once (the transport contract). -/
structure AsyncEnv where
  tick : FetchR String
  book : FetchR Orderbook
  negRisk : FetchR Bool
  feeRate : FetchR ℤ
  post : PostR

/-- One invocation of the caller's callback: whether it came from an error
path (finish_with_error or a failed POST), and the OrderResponse fields the
claim talks about. -/
structure CallbackInv where
  viaError : Bool
  success : Bool
  error_msg : String
  client_order_id : String

/-- finish_with_error (clob_client.cpp lines 1320-1335): success false,
the message, the caller's client order id. -/
def finishInv (p : MOParams) (msg : String) : CallbackInv :=
  ⟨true, false, msg, p.client_order_id⟩

/-- Completion handler of the final POST (clob_client.cpp lines
1581-1612): on a non-2xx/transport failure force success false and
populate the error message from the parsed body, the transport error or
the status code. -/
def postCompletion (p : MOParams) (env : AsyncEnv) : CallbackInv :=
  if env.post.ok then
    ⟨false, env.post.parsed_success, env.post.parsed_error_msg, p.client_order_id⟩
  else
    ⟨true, false,
      (if env.post.parsed_error_msg ≠ "" then env.post.parsed_error_msg
       else if env.post.http_error ≠ "" then env.post.http_error
       else "http error: " ++ toString env.post.status_code),
      p.client_order_id⟩

/-- std::stoi on the fee strings: value of the leading digit prefix, none
models the exception when there is none. -/
def parseIntOpt (s : String) : Option ℤ :=
  let ds := s.data.takeWhile (fun c => c.isDigit)
  if ds.isEmpty then none else some ((pv ds : ℤ))

/-- Fee validation at the top of submit_order (clob_client.cpp lines
1474-1498): when the fee was not caller-provided and the fetched market
fee is positive, a non-zero caller fee string must parse and match it;
stoi failures and mismatches are funnelled through finish_with_error. -/
def feeCheckStep (p : MOParams) (feeFetched : ℤ) : Option CallbackInv :=
  let fee0 := if p.fee_rate_bps = "" then "0" else p.fee_rate_bps
  if ¬ p.fee_rate_bps_provided ∧ 0 < feeFetched ∧ fee0 ≠ "0" then
    match parseIntOpt fee0 with
    | none => some (finishInv p ("invalid fee rate (" ++ fee0 ++ ")"))
    | some v =>
      if v ≠ feeFetched then
        some (finishInv p (("invalid fee rate (" ++ fee0) ++
          "), current market's taker fee: " ++ toString feeFetched))
      else none
  else none

/-- submit_order (clob_client.cpp lines 1472-1613): fee validation, then
get_round_config - whose unsupported-tick-size exception is NOT caught and
escapes the pipeline (modelled as Except.error) - then the amount math,
signing and the POST whose completion delivers the response.  The returned
list holds the callback invocations. -/
def submitStep (p : MOParams) (env : AsyncEnv) (tick : String) (price : ℚ)
    (feeFetched : ℤ) : Except String (List CallbackInv) :=
  match feeCheckStep p feeFetched with
  | some inv => .ok [inv]
  | none =>
    match get_round_config tick with
    | none => .error ("unsupported tick size: " ++ tick)
    | some cfg =>
      let raw_price := round_normal price cfg.price
      let raw_maker := round_down p.amount cfg.size
      .ok [postCompletion p env]

/-- resolve_fee_rate (clob_client.cpp lines 1440-1470). -/
def resolveFee (p : MOParams) (env : AsyncEnv) (tick : String) (price : ℚ) :
    Except String (List CallbackInv) :=
  if p.fee_rate_bps_provided then submitStep p env tick price 0
  else
    match env.feeRate with
    | .httpError => .ok [finishInv p ("failed to fetch fee rate")]
    | .parseError => .ok [finishInv p ("failed to parse fee rate")]
    | .ok n => submitStep p env tick price n

/-- resolve_neg_risk (clob_client.cpp lines 1406-1438). -/
def resolveNegRisk (p : MOParams) (env : AsyncEnv) (tick : String) (price : ℚ) :
    Except String (List CallbackInv) :=
  match p.neg_risk with
  | some _ => resolveFee p env tick price
  | none =>
    match env.negRisk with
    | .httpError => .ok [finishInv p ("failed to fetch neg risk")]
    | .parseError => .ok [finishInv p ("failed to parse neg risk")]
    | .ok _ => resolveFee p env tick price

/-- Book-derived price of resolve_price (clob_client.cpp lines 1358-1403):
fetch the book, compute the market price (the no-match exception is caught
and funnelled), validate it.  The price_valid stod exception on an
unparseable tick escapes (Except.error). -/
def resolvePriceFromBook (p : MOParams) (env : AsyncEnv) (tick : String) :
    Except String (List CallbackInv) :=
  match env.book with
  | .httpError => .ok [finishInv p ("no orderbook")]
  | .parseError => .ok [finishInv p ("no orderbook")]
  | .ok book =>
    match (if p.side = OrderSide.BUY then
        calculate_buy_market_price book.asks p.amount p.order_type
      else
        calculate_sell_market_price book.bids p.amount p.order_type) with
    | .error e => .ok [finishInv p e]
    | .ok pr =>
      match price_valid pr tick with
      | none => .error "stod: no conversion"
      | some false => .ok [finishInv p ("invalid price")]
      | some true => resolveNegRisk p env tick pr

/-- resolve_price (clob_client.cpp lines 1342-1404): a caller-given
positive price is validated directly, otherwise the book path runs. -/
def resolvePrice (p : MOParams) (env : AsyncEnv) (tick : String) :
    Except String (List CallbackInv) :=
  match p.price with
  | some pr =>
    if 0 < pr then
      match price_valid pr tick with
      | none => .error "stod: no conversion"
      | some false => .ok [finishInv p ("invalid price")]
      | some true => resolveNegRisk p env tick pr
    else resolvePriceFromBook p env tick
  | none => resolvePriceFromBook p env tick

/-- Tick-size fetch of the pipeline entry (clob_client.cpp lines
1661-1698). -/
def fetchTickStep (p : MOParams) (env : AsyncEnv) :
    Except String (List CallbackInv) :=
  match env.tick with
  | .httpError => .ok [finishInv p ("failed to fetch tick size")]
  | .parseError => .ok [finishInv p ("failed to parse tick size")]
  | .ok t => resolvePrice p env t

/-- ClobClient::create_and_post_market_order_v2_async (clob_client.cpp
lines 1287-1699): the full pipeline, returning the list of callback
invocations, or Except.error when a C++ exception escapes the pipeline
uncaught (stod on an unparseable tick size, get_round_config on an
unsupported one). -/
def runPipeline (p : MOParams) (env : AsyncEnv) :
    Except String (List CallbackInv) :=
  if p.authenticated = false then
    .ok [⟨true, false, "Client not authenticated", ""⟩]
  else if p.strict_no_fetch then
    match p.tick_size with
    | none => .ok [finishInv p ("strict_no_fetch requires tick_size")]
    | some ts =>
      if ts = "" then .ok [finishInv p ("strict_no_fetch requires tick_size")]
      else
        match p.price with
        | none => .ok [finishInv p ("strict_no_fetch requires price")]
        | some pr =>
          if pr ≤ 0 then .ok [finishInv p ("strict_no_fetch requires price")]
          else
            match p.neg_risk with
            | none => .ok [finishInv p ("strict_no_fetch requires neg_risk")]
            | some _ =>
              if ¬ p.fee_rate_bps_provided ∨ p.fee_rate_bps = "" then
                .ok [finishInv p ("strict_no_fetch requires fee_rate_bps")]
              else
                match price_valid pr ts with
                | none => .error "stod: no conversion"
                | some false => .ok [finishInv p ("invalid price")]
                | some true => submitStep p env ts pr 0
  else
    match p.tick_size with
    | some ts => if ts ≠ "" then resolvePrice p env ts else fetchTickStep p env
    | none => fetchTickStep p env

/-- Concrete strict-mode parameters with the supported-looking but
unsupported tick size 0.05: all four strict inputs are present and the
price 0.5 is valid for tick 0.05. -/
def badStrictParams : MOParams :=
  { authenticated := true, strict_no_fetch := true, tick_size := some ("0.05"),
    price := some (1/2), neg_risk := some false, fee_rate_bps := "10",
    fee_rate_bps_provided := true, amount := 1, side := OrderSide.BUY,
    order_type := OrderType.FOK, client_order_id := "cid1" }

/-- Any environment; the failing run never reaches the transport. -/
def idleEnv : AsyncEnv :=
  { tick := .ok ("0.01"), book := .httpError, negRisk := .ok false,
    feeRate := .ok 0,
    post := { ok := true, parsed_success := true, parsed_error_msg := "",
              parsed_status := "", http_error := "", status_code := 200 } }

/-- C9 failing input: with strict_no_fetch and tick size 0.05 the
pipeline's submit step calls get_round_config, whose unsupported-tick-size
exception is not caught by any handler and escapes
create_and_post_market_order_v2_async; the caller's callback is never
invoked, contradicting the exactly-once contract. -/
theorem async_pipeline_exception_escape :
    runPipeline badStrictParams idleEnv =
      .error ("unsupported tick size: 0.05") ∧
    ∀ invs, runPipeline badStrictParams idleEnv ≠ .ok invs := by
  constructor
  · with_unfolding_all rfl
  · intro invs hcontra
    have h1 : runPipeline badStrictParams idleEnv =
        .error ("unsupported tick size: 0.05") := by with_unfolding_all rfl
    rw [h1] at hcontra
    exact Except.noConfusion hcontra

theorem string_data_append_ne_nil_right (s t : String) (h : t.data ≠ []) :
    (s ++ t).data ≠ [] := by
  rw [String.data_append]
  intro hc
  exact h (List.append_eq_nil.1 hc).2

theorem string_append_ne_empty_left2 (s t : String) (h : s.data ≠ []) :
    s ++ t ≠ "" := by
  intro he
  apply h
  have hd := congrArg String.data he
  rw [String.data_append] at hd
  exact (List.append_eq_nil.1 hd).1

/-- The property the claim asserts of every completed run: the callback
fires exactly once, and an error-path invocation carries success false and
a populated error message. -/
def goodInvs (invs : List CallbackInv) : Prop :=
  invs.length = 1 ∧
  ∀ inv ∈ invs, inv.viaError = true → inv.success = false ∧ inv.error_msg ≠ ""

theorem good_finish (p : MOParams) (msg : String) (hm : msg ≠ "") :
    goodInvs [finishInv p msg] := by
  refine ⟨rfl, ?_⟩
  intro inv hinv _
  rw [List.mem_singleton.1 hinv]
  exact ⟨rfl, hm⟩

theorem good_post (p : MOParams) (env : AsyncEnv) :
    goodInvs [postCompletion p env] := by
  refine ⟨rfl, ?_⟩
  intro inv hinv hve
  rw [List.mem_singleton.1 hinv] at hve ⊢
  unfold postCompletion at hve ⊢
  by_cases hok : env.post.ok = true
  · rw [if_pos hok] at hve
    exact absurd hve (by simp)
  · rw [if_neg hok] at hve ⊢
    refine ⟨rfl, ?_⟩
    show (if env.post.parsed_error_msg ≠ "" then env.post.parsed_error_msg
      else if env.post.http_error ≠ "" then env.post.http_error
      else "http error: " ++ toString env.post.status_code) ≠ ""
    by_cases h1 : env.post.parsed_error_msg ≠ ""
    · rw [if_pos h1]
      exact h1
    · rw [if_neg h1]
      by_cases h2 : env.post.http_error ≠ ""
      · rw [if_pos h2]
        exact h2
      · rw [if_neg h2]
        exact string_append_ne_empty_left2 _ _ (by decide)

theorem calcCore_error_msg (f : PriceLevel → ℚ) (positions : List PriceLevel)
    (amount : ℚ) (ot : OrderType) (e : String)
    (h : calcCore f positions amount ot = .error e) : e = "no match" := by
  unfold calcCore at h
  split at h
  · injection h with h
    exact h.symm
  · split at h
    · exact Except.noConfusion h
    · split at h
      · injection h with h
        exact h.symm
      · exact Except.noConfusion h

theorem feeCheckStep_inv (p : MOParams) (f : ℤ) (inv : CallbackInv)
    (h : feeCheckStep p f = some inv) :
    inv.viaError = true ∧ inv.success = false ∧ inv.error_msg ≠ "" := by
  simp only [feeCheckStep] at h
  repeat' split at h
  all_goals
    first
      | exact Option.noConfusion h
      | (injection h with h
         subst h
         refine ⟨rfl, rfl, ?_⟩
         first
           | exact string_append_ne_empty_right _ _ (by decide)
           | (apply string_append_ne_empty_left2
              apply string_data_append_ne_nil_right
              decide))

theorem submitStep_good (p : MOParams) (env : AsyncEnv) (tick : String)
    (price : ℚ) (f : ℤ) (invs : List CallbackInv)
    (h : submitStep p env tick price f = .ok invs) : goodInvs invs := by
  unfold submitStep at h
  split at h
  · rename_i inv heq
    injection h with h
    subst h
    obtain ⟨h1, h2, h3⟩ := feeCheckStep_inv p f inv heq
    exact ⟨rfl, fun x hx _ => by
      rw [List.mem_singleton.1 hx]
      exact ⟨h2, h3⟩⟩
  · split at h
    · exact Except.noConfusion h
    · injection h with h
      subst h
      exact good_post p env

theorem resolveFee_good (p : MOParams) (env : AsyncEnv) (tick : String)
    (price : ℚ) (invs : List CallbackInv)
    (h : resolveFee p env tick price = .ok invs) : goodInvs invs := by
  unfold resolveFee at h
  split at h
  · exact submitStep_good p env tick price 0 invs h
  · split at h
    · injection h with h
      subst h
      exact good_finish p _ (by decide)
    · injection h with h
      subst h
      exact good_finish p _ (by decide)
    · exact submitStep_good p env tick price _ invs h

theorem resolveNegRisk_good (p : MOParams) (env : AsyncEnv) (tick : String)
    (price : ℚ) (invs : List CallbackInv)
    (h : resolveNegRisk p env tick price = .ok invs) : goodInvs invs := by
  unfold resolveNegRisk at h
  split at h
  · exact resolveFee_good p env tick price invs h
  · split at h
    · injection h with h
      subst h
      exact good_finish p _ (by decide)
    · injection h with h
      subst h
      exact good_finish p _ (by decide)
    · exact resolveFee_good p env tick price invs h

theorem resolvePriceFromBook_good (p : MOParams) (env : AsyncEnv)
    (tick : String) (invs : List CallbackInv)
    (h : resolvePriceFromBook p env tick = .ok invs) : goodInvs invs := by
  unfold resolvePriceFromBook at h
  split at h
  · injection h with h
    subst h
    exact good_finish p _ (by decide)
  · injection h with h
    subst h
    exact good_finish p _ (by decide)
  · rename_i book
    by_cases hside : p.side = OrderSide.BUY
    · rw [if_pos hside] at h
      split at h
      · rename_i e heq
        injection h with h
        subst h
        apply good_finish
        have he : e = "no match" := calcCore_error_msg _ _ _ _ e heq
        rw [he]
        decide
      · rename_i pr heq
        split at h
        · exact Except.noConfusion h
        · injection h with h
          subst h
          exact good_finish p _ (by decide)
        · exact resolveNegRisk_good p env tick pr invs h
    · rw [if_neg hside] at h
      split at h
      · rename_i e heq
        injection h with h
        subst h
        apply good_finish
        have he : e = "no match" := calcCore_error_msg _ _ _ _ e heq
        rw [he]
        decide
      · rename_i pr heq
        split at h
        · exact Except.noConfusion h
        · injection h with h
          subst h
          exact good_finish p _ (by decide)
        · exact resolveNegRisk_good p env tick pr invs h

theorem resolvePrice_good (p : MOParams) (env : AsyncEnv) (tick : String)
    (invs : List CallbackInv)
    (h : resolvePrice p env tick = .ok invs) : goodInvs invs := by
  unfold resolvePrice at h
  split at h
  · rename_i pr hpeq
    split at h
    · split at h
      · exact Except.noConfusion h
      · injection h with h
        subst h
        exact good_finish p _ (by decide)
      · exact resolveNegRisk_good p env tick pr invs h
    · exact resolvePriceFromBook_good p env tick invs h
  · exact resolvePriceFromBook_good p env tick invs h

theorem fetchTickStep_good (p : MOParams) (env : AsyncEnv)
    (invs : List CallbackInv)
    (h : fetchTickStep p env = .ok invs) : goodInvs invs := by
  unfold fetchTickStep at h
  split at h
  · injection h with h
    subst h
    exact good_finish p _ (by decide)
  · injection h with h
    subst h
    exact good_finish p _ (by decide)
  · rename_i t hteq
    exact resolvePrice_good p env t invs h

/-- Supporting theorem for C9: whenever the pipeline completes without an
escaped exception, the caller's callback is invoked exactly once, and an
error-path invocation carries success false with a populated error
message. -/
theorem runPipeline_exactly_once (p : MOParams) (env : AsyncEnv)
    (invs : List CallbackInv) (h : runPipeline p env = .ok invs) :
    invs.length = 1 ∧
    ∀ inv ∈ invs, inv.viaError = true →
      inv.success = false ∧ inv.error_msg ≠ "" := by
  have hg : goodInvs invs := by
    unfold runPipeline at h
    split at h
    · injection h with h
      subst h
      refine ⟨rfl, ?_⟩
      intro inv hinv _
      rw [List.mem_singleton.1 hinv]
      exact ⟨rfl, by decide⟩
    · split at h
      · split at h
        · injection h with h
          subst h
          exact good_finish p _ (by decide)
        · rename_i ts hts
          split at h
          · injection h with h
            subst h
            exact good_finish p _ (by decide)
          · split at h
            · injection h with h
              subst h
              exact good_finish p _ (by decide)
            · rename_i pr hpr
              split at h
              · injection h with h
                subst h
                exact good_finish p _ (by decide)
              · split at h
                · injection h with h
                  subst h
                  exact good_finish p _ (by decide)
                · split at h
                  · injection h with h
                    subst h
                    exact good_finish p _ (by decide)
                  · split at h
                    · exact Except.noConfusion h
                    · injection h with h
                      subst h
                      exact good_finish p _ (by decide)
                    · exact submitStep_good p env ts pr 0 invs h
      · split at h
        · rename_i ts htseq
          split at h
          · exact resolvePrice_good p env ts invs h
          · exact fetchTickStep_good p env invs h
        · exact fetchTickStep_good p env invs h
  exact hg

end Polymarket
